import Mathlib

/-!
Verification of the TAF/METAR matching and reliability-table engine
(`standard_verification/rt.py`, with component initialisation from
`extract.py` and the probability-bin lookup from `driver.py`).

Shallow embedding conventions:
* Python `datetime` values are modelled as rationals (seconds); a
  `timedelta.total_seconds()` is then plain subtraction.
* Python `float` arithmetic is modelled exactly over `ℚ`.
* Python objects are identified by an `id` field; Python `==` on the
  sqlalchemy component objects is reference equality, modelled as `id`
  equality.  Mutation is modelled by explicit state passing: every
  function returns the updated records.
* `list.sort(key=...)` is a stable sort, modelled with `List.mergeSort`
  (which is stable) on a decidable lexicographic key order.
* The 3-D reliability tables `obs` / `obs_uncertainty` are modelled by
  the list of increments (`fc_cat, metar_cat, prob_index`) performed on
  them; the table entry `[c][o][i]` is the count of `(c,o,i)` in the log.
-/

/-- One METAR component (`METARComp` of `extract.py`) together with the
mutable matching state used by `rt.py` (`match`, `prob`,
`matched_groups`).  `matchList` models the Python attribute `match`
(a Lean keyword). -/
structure MetarComp where
  id : ℕ
  issue_dt : ℚ
  station_id : String
  parameter : String
  issue_origin : String
  value : ℚ
  cat : ℤ
  prob : ℚ
  matchList : List (ℤ × ℚ)
  matched_groups : List ℕ
  deriving Repr, DecidableEq

/-- One TAF component (`TAFComp` of `extract.py`) together with the
mutable matching counters initialised in `get_taf_comps` and updated by
`match_pair` / `match_section`. -/
structure TafComp where
  id : ℕ
  start_dt : ℚ
  end_dt : ℚ
  change_type : String
  value : ℚ
  cat : ℤ
  prob : ℚ
  min_matches : ℚ
  max_matches : ℚ
  remaining_metars : ℚ
  req_matches_in_section : ℚ
  matched_metars : ℤ
  exact_matched_metars : ℤ
  deriving Repr, DecidableEq

instance : Inhabited TafComp :=
  ⟨⟨0, 0, 0, "", 0, 0, 0, 0, 0, 0, 0, 0, 0⟩⟩

instance : Inhabited MetarComp :=
  ⟨⟨0, 0, "", "", "", 0, 0, 0, [], []⟩⟩

/-- The TAF component length in hours (`TAFComp.length` of `extract.py`:
`(end_dt - start_dt).total_seconds()/3600`). -/
def TafComp.lengthH (c : TafComp) : ℚ :=
  (c.end_dt - c.start_dt) / 3600

/-- Configuration record: the fields of the parsed arguments that
`rt.py` reads.  `cats` lists are only used through their length, kept
as `numCats`. -/
structure Args where
  ver_period : Option ℚ
  metars_per_hour : ℚ
  probbins : List ℚ
  probbins_uncertainty : List ℚ
  numCats : ℕ
  deriving Repr

/-- A TAF: the `INIT` baseline component plus the associated TAF and
METAR components (class `TAF` of `rt.py`). -/
structure TAF where
  init_comp : TafComp
  taf_comps : List TafComp
  metar_comps : List MetarComp
  deriving Repr

/-- `self.len = init_comp.end_dt - init_comp.start_dt` (a timedelta,
modelled in seconds). -/
def TAF.len (t : TAF) : ℚ := t.init_comp.end_dt - t.init_comp.start_dt

/-- `Problist.index` of `driver.py`: index of the first bin within
0.001 of `prob`; `none` models the `ValueError`. -/
def probIndex (bins : List ℚ) (p : ℚ) : Option ℕ :=
  bins.findIdx? (fun b => decide (|b - p| < 1/1000))

/-- The target-category selection chain of `match_pair`
(`rt.py` lines 531-577).  Returns `none` when the final `else` branch
(`return False`, no category) is taken. -/
def matchPairCat (m : MetarComp) (t : TafComp) (mainCat : ℤ)
    (minId maxId : ℕ) (force : Bool) : Option ℤ :=
  -- Is TAF comp above or below main category?
  let tafBelowMain : Bool := decide (mainCat > t.cat)
  let tafAboveMain : Bool := decide (t.cat > mainCat)
  if t.req_matches_in_section = 1 ∧ t.exact_matched_metars = 0 ∧
      t.remaining_metars = 0 then
    some t.cat
  else if m.cat ≥ t.cat ∧ m.id = minId ∧ t.exact_matched_metars = 0 ∧
      t.remaining_metars = 0 then
    some t.cat
  else if m.cat ≤ t.cat ∧ m.id = maxId ∧ t.exact_matched_metars = 0 ∧
      t.remaining_metars = 0 then
    some t.cat
  else if (m.cat - t.cat) * (m.cat - mainCat) < 0 then
    some m.cat
  else if tafBelowMain ∧ m.cat ≥ mainCat ∧ force then
    some (mainCat - 1)
  else if tafAboveMain ∧ m.cat ≤ mainCat ∧ force then
    some (mainCat + 1)
  else if force then
    some t.cat
  else if |m.cat - t.cat| < |m.cat - mainCat| then
    some t.cat
  else
    none

/-- `match_pair` of `rt.py` (lines 519-594).  `mainCat` is `main.cat`
(the only attribute of `main` that `match_pair` reads); `minId`/`maxId`
identify `min_metar`/`max_metar` (compared by object identity).
Returns the Python return value together with the updated states of
`metar_comp` and `taf_comp`. -/
def matchPair (m : MetarComp) (t : TafComp) (mainCat : ℤ)
    (minId maxId : ℕ) (force : Bool) : Bool × MetarComp × TafComp :=
  if (t.matched_metars : ℚ) ≥ t.max_matches then (false, m, t)
  else if m.prob ≥ 1 then (false, m, t)
  else if t.id ∈ m.matched_groups then (false, m, t)
  else
    match matchPairCat m t mainCat minId maxId force with
    | none => (false, m, t)
    | some fcCat =>
      let matchedProb₀ := t.prob
      let matchedProb :=
        if m.prob + matchedProb₀ > 1 then 1 - m.prob else matchedProb₀
      if matchedProb > 0 then
        let m' := { m with
          matched_groups := m.matched_groups ++ [t.id]
          matchList := m.matchList ++ [(fcCat, matchedProb)]
          prob := m.prob + matchedProb }
        let t' := { t with
          matched_metars := t.matched_metars + 1
          req_matches_in_section :=
            t.min_matches - ((t.matched_metars + 1 : ℤ) : ℚ) -
              t.remaining_metars
          exact_matched_metars :=
            if t.cat = fcCat then t.exact_matched_metars + 1
            else t.exact_matched_metars }
        (true, m', t')
      else (false, m, t)

/-- Rejection errors raised by `TAF.sections` (`rt.py` lines 742-755). -/
inductive SecErr where
  | noMetars
  | twoHourGap
  | noLastHour
  deriving Repr, DecidableEq

/-- One yielded TAF section: the tuple
`(section_metar_comps, valid_comps_prev, main, section_length)` of
`rt.py` line 166/182.  METAR/TAF components are snapshots of the
immutable fields; the mutable matching state lives in the stores
threaded through `constructRt`. -/
structure Section where
  metars : List MetarComp
  tafs : List TafComp
  main : TafComp
  len : ℚ
  deriving Repr

/-- Key used by `remove_duplicates`: same issue datetime, station and
parameter. -/
def sameKeyB (a b : MetarComp) : Bool :=
  decide (a.issue_dt = b.issue_dt) && decide (a.station_id = b.station_id)
    && decide (a.parameter = b.parameter)

/-- Loop of `TAF.remove_duplicates` (`rt.py` lines 195-211): keep the
first METAR seen for each `(issue_dt, station_id, parameter)` key. -/
def removeDuplicatesGo (acc : List MetarComp) : List MetarComp → List MetarComp
  | [] => acc
  | m :: rest =>
    if acc.any (fun m_ => sameKeyB m m_) then removeDuplicatesGo acc rest
    else removeDuplicatesGo (acc ++ [m]) rest

/-- `TAF.remove_duplicates` (`rt.py` lines 195-211). -/
def removeDuplicates (l : List MetarComp) : List MetarComp :=
  removeDuplicatesGo [] l

/-- `TAF.valid_taf_components` (`rt.py` lines 184-193): the TAF
components whose window contains the METAR's issue time, in
`taf_comps` order. -/
def validComps (tcs : List TafComp) (m : MetarComp) : List TafComp :=
  tcs.filter (fun c => decide (c.start_dt ≤ m.issue_dt) &&
    decide (m.issue_dt ≤ c.end_dt))

/-- The `main`-update performed after each yield (`rt.py` lines
168-173): every component of the just-yielded set that is a `BECMG`
ending exactly at the boundary replaces `main` (the last one wins). -/
def becmgUpdate (prev : List TafComp) (changeDt : ℚ) (main : TafComp) :
    TafComp :=
  prev.foldl
    (fun acc vc =>
      if vc.change_type = "BECMG" ∧ vc.end_dt = changeDt then vc else acc)
    main

/-- The boundary datetime of a section change (`rt.py` lines 156-163):
the start of the first starting component if any, else the end of the
first ending component.  The `0` fallback is unreachable: `prev` and
`valid` are filters of the same component list, so if neither a
starting nor an ending component exists they are equal. -/
def changeBoundary (prev valid : List TafComp) : ℚ :=
  let ending := prev.filter (fun vc => !(valid.any (fun c => c.id = vc.id)))
  let starting := valid.filter (fun vc => !(prev.any (fun c => c.id = vc.id)))
  match starting with
  | c :: _ => c.start_dt
  | [] =>
    match ending with
    | c :: _ => c.end_dt
    | [] => 0

/-- The METAR loop of the `TAF.sections` generator (`rt.py` lines
135-182), after the guards, deduplication and the verification-period
cut-off have been applied.  Arguments mirror the loop state:
the current `main`, the accumulated `section_metar_comps`,
`valid_comps_prev`, `section_start` and the remaining METARs. -/
def secLoop (tcs : List TafComp) (endDt : ℚ) (main : TafComp)
    (acc : List MetarComp) (prev : List TafComp) (secStart : ℚ) :
    List MetarComp → List Section
  | [] =>
    -- Yield final section (lines 179-182)
    if acc.isEmpty then []
    else [⟨acc, prev, main, (endDt - secStart) / 3600⟩]
  | m :: rest =>
    let valid := validComps tcs m
    if valid.map (·.id) = prev.map (·.id) then
      secLoop tcs endDt main (acc ++ [m]) prev secStart rest
    else
      let changeDt := changeBoundary prev valid
      let sec : Section := ⟨acc, prev, main, (changeDt - secStart) / 3600⟩
      sec :: secLoop tcs endDt (becmgUpdate prev changeDt main) [m] valid
        changeDt rest

/-- The METAR list the `sections` loop iterates: deduplicated
(line 122) and truncated at the verification-period cut-off
(`if cut_off and metar_comp.issue_dt > cut_off: break`, line 137). -/
def processedMetars (args : Args) (taf : TAF) : List MetarComp :=
  let ms := removeDuplicates taf.metar_comps
  match args.ver_period with
  | none => ms
  | some vp =>
    ms.takeWhile
      (fun m => !(decide (m.issue_dt > taf.init_comp.start_dt + vp)))

/-- `TAF.sections` (`rt.py` lines 95-182) as a whole-run function: the
generator's lazy evaluation only reads immutable fields, so the list of
yielded sections is fixed up front.  Note line 111 calls `sorted`
without using its result, so the gap test runs over the list order.
The errors are `TAFNoMETARsError`, `TAFTwoHourMETARGapError` and
`TAFNoLastHrMETARsError`; an error means no section is ever yielded. -/
def sectionsFrom (args : Args) (taf : TAF) : Except SecErr (List Section) :=
  if taf.metar_comps.isEmpty then .error .noMetars
  else
    let dts := taf.metar_comps.map (·.issue_dt)
    if ((taf.init_comp.start_dt :: dts.dropLast).zip dts).any
        (fun p => decide (p.2 - p.1 > 2 * 3600)) then
      .error .twoHourGap
    else if taf.init_comp.end_dt - dts.getLastD 0 > 3600 then
      .error .noLastHour
    else
      match processedMetars args taf with
      | [] => .ok []
      | m0 :: rest =>
        .ok (secLoop taf.taf_comps taf.init_comp.end_dt taf.init_comp [m0]
          (validComps taf.taf_comps m0) taf.init_comp.start_dt rest)

/-- Store lookup for TAF components by identity. -/
def getTaf (st : List TafComp) (i : ℕ) : TafComp :=
  (st.find? (fun c => c.id = i)).getD default

/-- Store update for TAF components by identity. -/
def setTaf (st : List TafComp) (c : TafComp) : List TafComp :=
  st.map (fun x => if x.id = c.id then c else x)

/-- Store lookup for METAR components by identity. -/
def getMetar (st : List MetarComp) (i : ℕ) : MetarComp :=
  (st.find? (fun c => c.id = i)).getD default

/-- Store update for METAR components by identity. -/
def setMetar (st : List MetarComp) (c : MetarComp) : List MetarComp :=
  st.map (fun x => if x.id = c.id then c else x)

/-- The joint store threaded through `match_section`: all TAF and METAR
components of the run. -/
structure Store where
  tafs : List TafComp
  metars : List MetarComp
  deriving Repr

/-- One `match_pair(metar_comp, taf_comp, main, min_metar, max_metar)`
call acting on the store. -/
def applyMatch (st : Store) (mid tid : ℕ) (mainCat : ℤ)
    (minId maxId : ℕ) (force : Bool) : Store :=
  let m := getMetar st.metars mid
  let t := getTaf st.tafs tid
  let r := matchPair m t mainCat minId maxId force
  ⟨setTaf st.tafs r.2.2, setMetar st.metars r.2.1⟩

/-- Stable sort of METAR ids by a rational pair key read from the
store, mirroring Python's stable `list.sort(key=...)`. -/
def sortMetarIds (st : List MetarComp) (key : MetarComp → ℚ × ℚ)
    (ids : List ℕ) : List ℕ :=
  ids.mergeSort (fun a b =>
    decide ((key (getMetar st a)).1 < (key (getMetar st b)).1) ||
      (decide ((key (getMetar st a)).1 = (key (getMetar st b)).1) &&
        decide ((key (getMetar st a)).2 ≤ (key (getMetar st b)).2)))

/-- Stable sort of TAF ids by a rational key read from the store. -/
def sortTafIds (st : List TafComp) (key : TafComp → ℚ) (ids : List ℕ) :
    List ℕ :=
  ids.mergeSort (fun a b => decide (key (getTaf st a) ≤ key (getTaf st b)))

/-- The body of the two `prob_limit` passes of `match_section`
(`rt.py` lines 680-721) for one value of `prob_limit`.  State is the
store plus the current order of the section's METAR list (which the
Python code keeps re-sorting in place). -/
def probLimitPass (mainCat : ℤ) (minId maxId : ℕ)
    (toMatch : List ℕ) (minT maxT : ℕ) (limit : ℚ)
    (st : Store) (order : List ℕ) : Store × List ℕ :=
  -- lines 682-694: per component, sort METARs by (category distance,
  -- value distance) and match while required
  let (st, order) := toMatch.foldl
    (fun (p : Store × List ℕ) tid =>
      let (st, order) := p
      if (getTaf st.tafs tid).prob > limit then (st, order)
      else
        let t := getTaf st.tafs tid
        let order := sortMetarIds st.metars
          (fun mc => ((|mc.cat - t.cat| : ℤ), |mc.value - t.value|)) order
        let st := order.foldl
          (fun st mid =>
            let tc := getTaf st.tafs tid
            if tc.req_matches_in_section > 0 ∨
                (tc.min_matches > 0 ∧ tc.exact_matched_metars = 0 ∧
                  tc.remaining_metars = 0) then
              applyMatch st mid tid mainCat minId maxId true
            else st) st
        (st, order))
    (st, order)
  -- lines 696-701: METARs below the minimum component
  let (st, order) :=
    if (getTaf st.tafs minT).prob ≤ limit then
      let order := sortMetarIds st.metars (fun mc => (mc.value, mc.issue_dt))
        order
      let st := order.foldl
        (fun st mid =>
          if (getMetar st.metars mid).value < (getTaf st.tafs minT).value then
            applyMatch st mid minT mainCat minId maxId true
          else st) st
      (st, order)
    else (st, order)
  -- lines 703-708: METARs above the maximum component
  let (st, order) :=
    if (getTaf st.tafs maxT).prob ≤ limit then
      let order := sortMetarIds st.metars (fun mc => (-mc.value, mc.issue_dt))
        order
      let st := order.foldl
        (fun st mid =>
          if (getMetar st.metars mid).value > (getTaf st.tafs maxT).value then
            applyMatch st mid maxT mainCat minId maxId true
          else st) st
      (st, order)
    else (st, order)
  -- lines 710-721: exact-category matches, closest value first
  let st := toMatch.foldl
    (fun st tid =>
      if (getTaf st.tafs tid).prob > limit then st
      else
        let t := getTaf st.tafs tid
        let exacts := order.filter
          (fun mid => decide ((getMetar st.metars mid).cat = t.cat))
        let exacts := exacts.mergeSort (fun a b =>
          decide (|(getMetar st.metars a).value - t.value| ≤
            |(getMetar st.metars b).value - t.value|))
        exacts.foldl
          (fun st mid => applyMatch st mid tid mainCat minId maxId true) st)
    st
  (st, order)

/-- `match_section` of `rt.py` (lines 596-740).  `metarIds`/`tafIds`
are the section's METAR and TAF component lists (by identity),
`mainId` the current `main`, `mis` the `metars_in_section` argument and
`freshId` the identity of the `copy.copy(main)` made for this section.
Returns the updated store together with the final order of the
section's METAR list (the Python function returns the re-sorted
`metar_comps` list itself). -/
def matchSection (st : Store) (metarIds tafIds : List ℕ) (mainId : ℕ)
    (mis : ℚ) (freshId : ℕ) : Store × List ℕ :=
  if metarIds.isEmpty then (st, metarIds)
  else
    -- lines 604-608: reset the observations' matching state
    let st : Store := ⟨st.tafs,
      st.metars.map (fun m =>
        if metarIds.any (fun i => i = m.id) then
          { m with matched_groups := [], matchList := [], prob := 0 }
        else m)⟩
    -- lines 613-619: sort by (value, issue) and fix min/max METAR
    let order := sortMetarIds st.metars (fun mc => (mc.value, mc.issue_dt))
      metarIds
    let minId := order.headD 0
    let maxId :=
      if (getMetar st.metars (order.getLastD 0)).value =
          (getMetar st.metars minId).value then minId
      else order.getLastD 0
    if tafIds.isEmpty then (st, order)
    else
      let mainCat := (getTaf st.tafs mainId).cat
      -- lines 624-629: per-section bookkeeping on the TAF components
      let st : Store := ⟨st.tafs.map (fun t =>
        if tafIds.any (fun i => i = t.id) then
          { t with
            remaining_metars := t.remaining_metars - mis
            req_matches_in_section :=
              t.min_matches - (t.matched_metars : ℚ) -
                (t.remaining_metars - mis) }
        else t), st.metars⟩
      -- lines 631-638: section-scoped copy of main
      let mainC := { getTaf st.tafs mainId with
        id := freshId
        max_matches := mis
        remaining_metars := 0
        matched_metars := 0
        min_matches := 0
        req_matches_in_section := 0 }
      let st : Store := ⟨st.tafs ++ [mainC], st.metars⟩
      -- lines 640-642: order components by prob, main copy first
      let tafOrder := freshId :: sortTafIds st.tafs (fun t => t.prob) tafIds
      -- lines 644-650: force-match components that need every METAR
      let n := metarIds.length
      let (st, toMatch) := tafOrder.foldl
        (fun (p : Store × List ℕ) tid =>
          let (st, toMatch) := p
          if (getTaf st.tafs tid).req_matches_in_section ≥ (n : ℚ) then
            (order.foldl
              (fun st mid => applyMatch st mid tid mainCat minId maxId true)
              st, toMatch)
          else (st, toMatch ++ [tid]))
        (st, [])
      if toMatch.length ≤ 1 then (st, order)
      else
        -- lines 655-657
        let toMatch := sortTafIds st.tafs (fun t => t.value) toMatch
        let minT := toMatch.headD 0
        let maxT := toMatch.getLastD 0
        -- lines 660-664
        let order := sortMetarIds st.metars (fun mc => (mc.value, mc.issue_dt))
          order
        let st := order.foldl
          (fun st mid =>
            if (getTaf st.tafs minT).req_matches_in_section > 0 ∧
                (getMetar st.metars mid).value <
                  (getTaf st.tafs minT).value then
              applyMatch st mid minT mainCat minId maxId true
            else st) st
        -- lines 666-671
        let order := sortMetarIds st.metars
          (fun mc => (-mc.value, mc.issue_dt)) order
        let st := order.foldl
          (fun st mid =>
            if (getTaf st.tafs maxT).req_matches_in_section > 0 ∧
                (getMetar st.metars mid).value >
                  (getTaf st.tafs maxT).value then
              applyMatch st mid maxT mainCat minId maxId true
            else st) st
        -- lines 680-721: the two probability-limit passes
        let (st, order) := probLimitPass mainCat minId maxId toMatch minT maxT
          (1/2) st order
        let (st, order) := probLimitPass mainCat minId maxId toMatch minT maxT
          1 st order
        -- lines 723-738: match any remaining METARs
        let (order, toMatch) :=
          if freshId = minT then
            (sortMetarIds st.metars (fun mc => (-mc.value, mc.issue_dt)) order,
              sortTafIds st.tafs (fun t => -t.value) toMatch)
          else
            (sortMetarIds st.metars (fun mc => (mc.value, mc.issue_dt)) order,
              sortTafIds st.tafs (fun t => t.value) toMatch)
        let st := order.foldl
          (fun st mid =>
            toMatch.foldl
              (fun st tid => applyMatch st mid tid mainCat minId maxId false)
              st) st
        (st, order)

/-- One increment of a reliability table:
`obs[fc_cat, metar_comp.cat, prob_ind] += 1`. -/
abbrev Write := ℤ × ℤ × ℕ

/-- Errors that abort `construct_rt` / `construct_rt_uncertainty`:
`TAFWrongLengthError`, `TAFTooComplexError`, or an error raised by the
`sections` generator while being consumed. -/
inductive RtErr where
  | wrongLength
  | tooComplex
  | valueError
  | secErr (e : SecErr)
  deriving Repr, DecidableEq

/-- `construct_rt` lines 243-245: residual probability to the main
forecast category (`if metar_comp.prob < 1.: match.append((main.cat,
1.-metar_comp.prob))`). -/
def residualFill (mainCat : ℤ) (m : MetarComp) : MetarComp :=
  if m.prob < 1 then
    { m with matchList := m.matchList ++ [(mainCat, 1 - m.prob)] }
  else m

/-- `construct_rt` lines 252-259: plain-table increments for the
recorded `(fc_cat, prob)` pairs of one observation; fails with
`TAFTooComplexError` when a probability has no bin, keeping the
increments already made. -/
def metarPairWrites (bins : List ℚ) (obCat : ℤ) :
    List (ℤ × ℚ) → Bool × List Write
  | [] => (true, [])
  | (fcCat, p) :: rest =>
    match probIndex bins p with
    | none => (false, [])
    | some ind =>
      let r := metarPairWrites bins obCat rest
      (r.1, (fcCat, obCat, ind) :: r.2)

/-- `construct_rt` lines 260-263: zero-bin backfill for every category
the observation was not matched to. -/
def backfillWrites (numCats : ℕ) (obCat : ℤ) (fcCats : List ℤ) :
    List Write :=
  ((List.range numCats).filter (fun i => !(fcCats.any (fun c => c = i)))).map
    (fun i => ((i : ℤ), obCat, 0))

/-- `construct_rt` lines 242-263 for one observation: residual fill,
then per-pair increments (aborting on an unknown probability), then
zero-bin backfill. -/
def metarWrites (bins : List ℚ) (numCats : ℕ) (mainCat : ℤ)
    (m : MetarComp) : Bool × List Write :=
  let m := residualFill mainCat m
  let r := metarPairWrites bins m.cat m.matchList
  if r.1 then
    (true, r.2 ++ backfillWrites numCats m.cat (m.matchList.map Prod.fst))
  else (false, r.2)

/-- The per-observation loop of `construct_rt` (lines 241-263) over the
sorted METARs of one section.  The `Bool` is false when
`TAFTooComplexError` was raised; the write log keeps everything
appended before the error. -/
def sectionMetarLoop (bins : List ℚ) (numCats : ℕ) (mainCat : ℤ)
    (st : Store) : List ℕ → Bool × List Write
  | [] => (true, [])
  | mid :: rest =>
    let r := metarWrites bins numCats mainCat (getMetar st.metars mid)
    if r.1 then
      let r' := sectionMetarLoop bins numCats mainCat st rest
      (r'.1, r.2 ++ r'.2)
    else (false, r.2)

/-- The section loop of `construct_rt` (lines 236-263), threading the
component store and the table log through the sections.  `freshId`
numbers the per-section `copy.copy(main)` objects. -/
def constructRtGo (args : Args) (freshId : ℕ) (st : Store) :
    List Section → Option RtErr × List Write
  | [] => (none, [])
  | sec :: rest =>
    let r := matchSection st (sec.metars.map (·.id)) (sec.tafs.map (·.id))
      sec.main.id (args.metars_per_hour * sec.len) freshId
    let st := r.1
    -- line 241: metar_comps.sort(key=lambda x: x.issue_dt)
    let order := sortMetarIds st.metars (fun mc => (mc.issue_dt, 0)) r.2
    let mainCat := (getTaf st.tafs sec.main.id).cat
    let w := sectionMetarLoop args.probbins args.numCats mainCat st order
    -- the residual fill also mutates the METAR store (line 245)
    let st : Store := ⟨st.tafs,
      order.foldl (fun ms mid =>
        setMetar ms (residualFill mainCat (getMetar ms mid))) st.metars⟩
    if w.1 then
      let r' := constructRtGo args (freshId + 1) st rest
      (r'.1, w.2 ++ r'.2)
    else (some .tooComplex, w.2)

/-- A fresh identity exceeding every component identity of the TAF,
used for the per-section copies of `main`. -/
def freshBase (taf : TAF) : ℕ :=
  ((taf.init_comp.id :: taf.taf_comps.map (·.id)) ++
    taf.metar_comps.map (·.id)).foldl max 0 + 1

/-- The initial component store of a run: the `INIT` component plus all
TAF components and the (deduplicated) METAR components. -/
def initStore (taf : TAF) : Store :=
  ⟨taf.init_comp :: taf.taf_comps, removeDuplicates taf.metar_comps⟩

/-- `construct_rt` of `rt.py` (lines 213-263): the plain reliability
table construction.  Returns the error outcome (if any) together with
the log of table increments performed before any error; a rejected
forecast keeps the increments already written (the table is not rolled
back). -/
def constructRt (args : Args) (taf : TAF) : Option RtErr × List Write :=
  if some taf.len ≠ args.ver_period then (some .wrongLength, [])
  else
    match sectionsFrom args taf with
    | .error e => (some (.secErr e), [])
    | .ok secs => constructRtGo args (freshBase taf) (initStore taf) secs

/-- Python `s.startswith(pat)`. -/
def strStarts (s pat : String) : Bool :=
  pat.data.isPrefixOf s.data

/-- Python `s.endswith(pat)`. -/
def strEnds (s pat : String) : Bool :=
  pat.data.isSuffixOf s.data

/-- Python `'pat' in s` substring test. -/
def containsSub (s pat : String) : Bool :=
  go s.data
where
  go : List Char → Bool
    | [] => pat.data.isPrefixOf []
    | l@(_ :: t) => pat.data.isPrefixOf l || go t

/-- Python `int(x)`: truncation toward zero, on our exact-rational
model of floats. -/
def pythonInt (q : ℚ) : ℤ := q.num / (q.den : ℤ)

/-- Round to the nearest integer, ties to even (Python `round`). -/
def roundHalfEven (q : ℚ) : ℤ :=
  let f := ⌊q⌋
  if q - f < 1/2 then f
  else if 1/2 < q - f then f + 1
  else if f % 2 = 0 then f else f + 1

/-- Python `round(x, d)` on the exact-rational model of floats. -/
def pyRound (q : ℚ) (d : ℕ) : ℚ :=
  (roundHalfEven (q * 10 ^ d) : ℚ) / 10 ^ d

/-- The 0.05-bin snapping of `construct_rt_uncertainty`
(`rt.py` lines 458-472): e.g. x goes into the 0.15 bin when
`1.25 <= 10*x < 1.75`. -/
def snapProb (p : ℚ) : ℚ :=
  let big := pyRound p 6 * 10
  let ib := pythonInt big
  if big < (ib : ℚ) + 1/4 then pyRound ((ib : ℚ) / 10) 2
  else if big < (ib : ℚ) + 3/4 then pyRound (((ib : ℚ) + 1/2) / 10) 2
  else pyRound (((ib : ℚ) + 1) / 10) 2

/-- Sum of the recorded probabilities of a match list. -/
def probSum (l : List (ℤ × ℚ)) : ℚ := (l.map Prod.snd).sum

/-- The rounding-residual correction of `construct_rt_uncertainty`
(`rt.py` lines 476-500): if the snapped probabilities do not sum to
1.00, move the largest entry by the residual. -/
def correctRounding (l : List (ℤ × ℚ)) : List (ℤ × ℚ) :=
  if pyRound (probSum l) 2 ≠ 1 then
    let dif := probSum l - 1
    let sorted := l.mergeSort (fun a b => decide (a.2 ≤ b.2))
    match sorted.getLast? with
    | none => sorted -- unreachable: the list always holds the main entry
    | some mx => sorted.dropLast ++ [(mx.1, pyRound (mx.2 - dif) 2)]
  else l

/-- The inner `probs` function of `construct_rt_uncertainty`
(`rt.py` lines 286-353): the closed-form `(prob_m, prob_a, prob_i)`
triple for a change group of length `n` hours.  `none` models the
`ValueError` for an unknown change type; the final component applies
the `if prob_i == 0: prob_i = None` coda of lines 350-351. -/
def pyProbs (n : ℚ) (ct : String) (m a : ℤ) :
    Option (ℚ × Option ℚ × Option ℚ) :=
  let coda : ℚ × Option ℚ × Option ℚ → Option (ℚ × Option ℚ × Option ℚ) :=
    fun t => some (t.1, t.2.1,
      match t.2.2 with
      | some v => if v = 0 then none else some v
      | none => none)
  if m = a then some (1, none, none)
  else
    let k : ℤ := |m - a| - 1
    if ct = "INIT" ∨ ct = "FM" then some (1, none, none)
    else if containsSub ct "TEMPO" then
      let baseA : ℚ := if k = 0 then (n + 1) / (4 * n) else (n + 3) / (8 * n)
      let baseI : ℚ := if k = 0 then 0 else (n - 1) / (8 * n * (k : ℚ))
      if containsSub ct "PROB30" then
        coda (1 - (3/10 * (n + 1)) / (4 * n), some (3/10 * baseA),
          some (3/10 * baseI))
      else if containsSub ct "PROB40" then
        coda (1 - (2/5 * (n + 1)) / (4 * n), some (2/5 * baseA),
          some (2/5 * baseI))
      else
        coda ((3 * n - 1) / (4 * n), some baseA, some baseI)
    else if ct = "BECMG" then
      let pm := (2 * n - 1) / (4 * n * ((k : ℚ) + 1))
      if k = 0 then coda (pm, some ((2 * n + 1) / (4 * n)), none)
      else coda (pm, some ((2 * n + 1) / (4 * n)), some pm)
    else if ct = "PROB30" then
      if k = 0 then coda (7/10, some (3/10), none)
      else coda (7/10, some ((3/10 * (2 * n + 1)) / (4 * n)),
        some ((3/10 * (2 * n - 1)) / (4 * n * (k : ℚ))))
    else if ct = "PROB40" then
      if k = 0 then coda (3/5, some (2/5), none)
      else coda (3/5, some ((2/5 * (2 * n + 1)) / (4 * n)),
        some ((2/5 * (2 * n - 1)) / (4 * n * (k : ℚ))))
    else none

/-- Python `range(lo, hi)` over integers. -/
def intRange (lo hi : ℤ) : List ℤ :=
  (List.range (hi - lo).toNat).map (fun i => lo + (i : ℤ))

/-- The intermediate categories of `construct_rt_uncertainty`
(`rt.py` lines 408-416), in 1-based category numbering. -/
def iCats (m a : ℤ) : List ℤ :=
  if m = a then []
  else if m > a then intRange (a + 1) m
  else intRange (m + 1) a

/-- The `mc_match` list built for one observation
(`rt.py` lines 444-456): main entry, alternative entry when
`prob_a != None`, one entry per intermediate category when
`prob_i != None` (categories are recorded 0-based, hence `- 1`). -/
def mkMcMatch (mCat aCat : ℤ) (pm : ℚ) (pa pi : Option ℚ) :
    List (ℤ × ℚ) :=
  (mCat - 1, pm) ::
    ((match pa with
      | some v => [(aCat - 1, v)]
      | none => []) ++
     (match pi with
      | some v => (iCats mCat aCat).map (fun c => (c - 1, v))
      | none => []))

/-- The number of intermediate categories (`num_i_cats`,
`rt.py` lines 297/412). -/
def numICats (m a : ℤ) : ℤ := if m = a then 0 else |m - a| - 1

/-- The pre-snapping total probability of a triple, counting
`prob_i` once per intermediate category. -/
def tripleTotal (m a : ℤ) (pm : ℚ) (pa pi : Option ℚ) : ℚ :=
  pm + pa.getD 0 + (numICats m a : ℚ) * pi.getD 0

/-- The per-component triple computation of `construct_rt_uncertainty`
(`rt.py` lines 394-418): note line 396 rebinds `section_length` to the
component's own length before `probs` is called, so the yielded section
length `sectionLength` is not what `probs` receives as `n`. -/
def sectionCompTriple (sectionLength : ℚ) (mainCat : ℤ) (comp : TafComp) :
    Option (ℚ × Option ℚ × Option ℚ) :=
  let _ := sectionLength -- line 396 discards the yielded section length
  pyProbs comp.lengthH comp.change_type (mainCat + 1) (comp.cat + 1)

/-- Table increments of `construct_rt_uncertainty` for one observation
(`rt.py` lines 458-514): snap to 0.05 bins, apply the residual
correction, write each recorded pair (aborting on an unknown
probability, keeping earlier increments), then the zero-bin backfill
for categories absent from the snapped list (line 511 reads the
pre-correction `rounded_mc_match` for the category set). -/
def uncObsWrites (bins : List ℚ) (numCats : ℕ) (mcMatch : List (ℤ × ℚ))
    (obCat : ℤ) : Bool × List Write :=
  let rounded := mcMatch.map (fun cp => (cp.1, snapProb cp.2))
  let newMatch := correctRounding rounded
  let r := metarPairWrites bins obCat newMatch
  if r.1 then
    (true, r.2 ++ backfillWrites numCats obCat (rounded.map Prod.fst))
  else (false, r.2)

/-- The observation loop of `construct_rt_uncertainty`
(`rt.py` lines 442-514). -/
def uncMetarLoop (bins : List ℚ) (numCats : ℕ) (mcMatch : List (ℤ × ℚ)) :
    List MetarComp → Bool × List Write
  | [] => (true, [])
  | m :: rest =>
    let r := uncObsWrites bins numCats mcMatch m.cat
    if r.1 then
      let r' := uncMetarLoop bins numCats mcMatch rest
      (r'.1, r.2 ++ r'.2)
    else (false, r.2)

/-- The section loop of `construct_rt_uncertainty`
(`rt.py` lines 371-514). -/
def constructRtUncGo (args : Args) : List Section → Option RtErr × List Write
  | [] => (none, [])
  | sec :: rest =>
    let cts := sec.tafs.map (·.change_type)
    -- lines 373-380: only 'simple' TAFs are supported
    if sec.tafs.length > 2 ∨ (sec.tafs.length = 2 ∧
        (containsSub (String.intercalate " " cts) "TEMPO" ∨
          cts = ["BECMG", "BECMG"])) then
      (some .tooComplex, [])
    else
      let mCat := sec.main.cat + 1
      let triple : Option (ℤ × ℚ × Option ℚ × Option ℚ) :=
        if sec.tafs.isEmpty then
          -- lines 382-393: no active change group
          some (0, 1, none, none)
        else
          -- lines 394-439: the loop leaves the LAST component's values
          let lastC := sec.tafs.getLastD default
          match sectionCompTriple sec.len sec.main.cat lastC with
          | none => none
          | some (pm, pa, pi) => some (lastC.cat + 1, pm, pa, pi)
      match triple with
      | none => (some .valueError, [])
      | some (aCat, pm, pa, pi) =>
        let mcMatch := mkMcMatch mCat aCat pm pa pi
        let order := sec.metars.mergeSort
          (fun x y => decide (x.issue_dt ≤ y.issue_dt))
        let w := uncMetarLoop args.probbins_uncertainty args.numCats mcMatch
          order
        if w.1 then
          let r := constructRtUncGo args rest
          (r.1, w.2 ++ r.2)
        else (some .tooComplex, w.2)

/-- `construct_rt_uncertainty` of `rt.py` (lines 281-516). -/
def constructRtUncertainty (args : Args) (taf : TAF) :
    Option RtErr × List Write :=
  if some taf.len ≠ args.ver_period then (some .wrongLength, [])
  else
    match sectionsFrom args taf with
    | .error e => (some (.secErr e), [])
    | .ok secs => constructRtUncGo args secs

/-- `TAFComp.prob` of `extract.py` (lines 109-119): the probability
associated with a change-group type. -/
def changeProb (ct : String) : ℚ :=
  if ct = "INIT" ∨ ct = "FM" ∨ ct = "TEMPO" ∨ ct = "BECMG" then 1
  else if strStarts ct "PROB30" then 3/10
  else if strStarts ct "PROB40" then 2/5
  else 0

/-- The matching-counter initialisation of `get_taf_comps`
(`extract.py` lines 160-177).  `req_matches_in_section` is not set by
`extract.py` (it is first assigned inside `match_section`); it starts
here as 0 and is always overwritten before being read. -/
def initTafComp (mph : ℚ) (i : ℕ) (startDt endDt : ℚ) (ct : String)
    (value : ℚ) (cat : ℤ) : TafComp :=
  let len := (endDt - startDt) / 3600
  { id := i
    start_dt := startDt
    end_dt := endDt
    change_type := ct
    value := value
    cat := cat
    prob := changeProb ct
    min_matches :=
      if ct = "INIT" ∨ ct = "FM" then 0
      else if strEnds ct "TEMPO" then 1
      else if ct = "BECMG" then 1
      else if strStarts ct "PROB" then mph * len
      else 0
    max_matches := if strEnds ct "TEMPO" then mph * len / 2 else mph * len
    remaining_metars := mph * len
    req_matches_in_section := 0
    matched_metars := 0
    exact_matched_metars := 0 }

/-- A METAR component as extracted (`get_metar_comps`), with the
matching state in its pre-run state. -/
def mkMetar (i : ℕ) (issue value : ℚ) (cat : ℤ) : MetarComp :=
  { id := i
    issue_dt := issue
    station_id := "EGAA"
    parameter := "PVI"
    issue_origin := "MANL"
    value := value
    cat := cat
    prob := 0
    matchList := []
    matched_groups := [] }

/-! ### Concrete runs used by counterexamples and witnesses -/

/-- A 1-hour `INIT` baseline component (category 1, value 10). -/
def cInit1h : TafComp := initTafComp 1 0 0 3600 "INIT" 10 1

/-- A 1-hour `TEMPO` component: `max_matches = 1*1/2 = 0.5` is
fractional (`extract.py` line 176). -/
def cTempo1h : TafComp := initTafComp 1 1 0 3600 "TEMPO" 5 0

/-- A METAR inside the 1-hour window, in the TEMPO category. -/
def mTempo : MetarComp := mkMetar 10 3600 5 0

/-- The store after `match_section` processes the single-METAR section
against the TEMPO component. -/
def tempoRun : Store :=
  (matchSection ⟨[cInit1h, cTempo1h], [mTempo]⟩ [10] [1] 0 1 100).1

/-! Concrete four-hour TAF whose second section records the
probability 0.4 twice on one observation, so the 0.2 residual has no
probability bin: used for the `construct_rt` atomicity analysis. -/

/-- 4-hour `INIT` component of the complex run. -/
def cxInit : TafComp := initTafComp 1 0 0 14400 "INIT" 10 1

/-- First 2h-long `PROB40` group over the second half of the window. -/
def cxP40a : TafComp := initTafComp 1 1 7200 14400 "PROB40" 5 0

/-- Second `PROB40` group with the same window. -/
def cxP40b : TafComp := initTafComp 1 2 7200 14400 "PROB40" 5 0

/-- The four hourly observations of the complex run. -/
def cxMetars : List MetarComp :=
  [mkMetar 11 3600 10 1, mkMetar 12 7200 5 0, mkMetar 13 10800 5 0,
    mkMetar 14 14400 10 1]

/-- The complex-run TAF. -/
def cxTAF : TAF := ⟨cxInit, [cxP40a, cxP40b], cxMetars⟩

/-- Arguments for the complex run: 4-hour verification period, one
METAR per hour, the standard plain probability bins, two categories. -/
def cxArgs : Args :=
  ⟨some 14400, 1, [0, 3/10, 2/5, 3/5, 7/10, 1], [0, 1/20, 1/10], 2⟩

/-- A `SPEC` METAR and a `MANL` METAR sharing the dedup key, in the
order the extraction produces them (`get_metar_comps` line 292 orders
`issue_origin` descending, so `SPEC` precedes `MANL`). -/
def mSpec : MetarComp :=
  { (mkMetar 21 3600 10 1) with issue_origin := "SPEC" }

/-- The `MANL` duplicate of `mSpec`. -/
def mManl : MetarComp :=
  { (mkMetar 22 3600 11 1) with issue_origin := "MANL" }

/-- The observation `mTempo` with its probability budget exhausted. -/
def mTempoFull : MetarComp := { mTempo with prob := 1 }

/-- One state change that `match_section` can apply to one TAF
component: a `match_pair` call in an arbitrary context, or the
per-section bookkeeping of `remaining_metars` /
`req_matches_in_section` (`rt.py` lines 624-629). -/
def SectionStep (t t' : TafComp) : Prop :=
  (∃ m mainCat minId maxId force,
    t' = (matchPair m t mainCat minId maxId force).2.2) ∨
  (∃ r q, t' = { t with
                  remaining_metars := r
                  req_matches_in_section := q })

/-- Apply a sequence of `match_pair` calls to one observation, each
with its own TAF component and context (the observation-side view of a
section's matching). -/
def applyMetarCalls (m : MetarComp) :
    List (TafComp × ℤ × ℕ × ℕ × Bool) → MetarComp
  | [] => m
  | c :: rest =>
    applyMetarCalls (matchPair m c.1 c.2.1 c.2.2.1 c.2.2.2.1 c.2.2.2.2).2.1
      rest

/-- A rational that is a whole number of 0.05 steps (the form of every
snapped probability). -/
def IsM20 (q : ℚ) : Prop := ∃ z : ℤ, q = (z : ℚ) / 20

/-- A 2-hour TEMPO component used to witness length dependence. -/
def c6a : TafComp := initTafComp 1 3 0 7200 "TEMPO" 5 0

/-- A 4-hour TEMPO component with the same change type and categories
as `c6a`. -/
def c6b : TafComp := initTafComp 1 4 0 14400 "TEMPO" 5 0

/-- A 2-hour TEMPO component over a shifted window, same length, change
type and category as `c6a`. -/
def c6c : TafComp := initTafComp 1 5 3600 10800 "TEMPO" 5 0

/-- A TAF whose only METAR sits three hours after the validity start:
an observation gap exceeding two hours. -/
def gapTAF : TAF := ⟨cxInit, [], [mkMetar 31 10800 10 1]⟩

/-- The complex-run arguments with a verification period (2h) shorter
than the forecast length (4h). -/
def shortArgs : Args := { cxArgs with ver_period := some 7200 }

/-- An `AUTO` duplicate sharing the dedup key with `mManl`. -/
def mAuto : MetarComp :=
  { (mkMetar 23 3600 12 1) with issue_origin := "AUTO" }

/-! Supporting definitions for the `sections` `main`-evolution analysis. -/

instance : Inhabited Section := ⟨⟨[], [], default, 0⟩⟩

/-- Adjacency of consecutively yielded sections: the next section's
`main` is the BECMG update of the previous one at a boundary datetime
lying between the last METAR of the earlier section and the first METAR
of the later one, strictly on at least one side. -/
def SecAdj (s s' : Section) : Prop :=
  ∃ t : ℚ,
    s'.main = becmgUpdate s.tafs t s.main ∧
    (s.metars.getLastD default).issue_dt ≤ t ∧
    t ≤ (s'.metars.headD default).issue_dt ∧
    ((s.metars.getLastD default).issue_dt < t ∨
      t < (s'.metars.headD default).issue_dt)

/-- A 2-hour `INIT` baseline for the BECMG run (not itself a BECMG). -/
def c4Init : TafComp := initTafComp 1 20 0 7200 "INIT" 10 1

/-- A BECMG component over the first hour; its end is the section
boundary at which `main` is replaced. -/
def c4Becmg : TafComp := initTafComp 1 21 0 3600 "BECMG" 5 0

/-- Two hourly observations, one on each side of the boundary. -/
def c4Metars : List MetarComp :=
  [mkMetar 25 1800 10 1, mkMetar 26 5400 5 0]

/-- The BECMG-run TAF. -/
def c4TAF : TAF := ⟨c4Init, [c4Becmg], c4Metars⟩

/-- Arguments of the BECMG run: no verification-period cut-off. -/
def c4Args : Args := ⟨none, 1, [0, 1], [0], 2⟩

/-- The sections the generator yields for the BECMG run. -/
def c4S : List Section := ((sectionsFrom c4Args c4TAF).toOption).getD []

/-! ### Theorems -/

/-- C1: when `match_pair` returns false it mutates nothing: the
observation's match list, allocated probability and matched groups and
the component's counters are all returned unchanged. -/
theorem matchPair_false_frame (m : MetarComp) (t : TafComp) (mainCat : ℤ)
    (minId maxId : ℕ) (force : Bool)
    (h : (matchPair m t mainCat minId maxId force).1 = false) :
    (matchPair m t mainCat minId maxId force).2.1 = m ∧
      (matchPair m t mainCat minId maxId force).2.2 = t := by
  unfold matchPair at h ⊢
  rcases hcat : matchPairCat m t mainCat minId maxId force with _ | fcCat <;>
    simp only [hcat] at h ⊢ <;>
    split_ifs at h ⊢ <;> simp_all

/-- C1 witness: a concrete rejected call (observation already fully
allocated) leaves both records unchanged. -/
theorem matchPair_false_frame_witness :
    (matchPair (mTempoFull) cTempo1h 1 10 10 true).1 = false ∧
      (matchPair (mTempoFull) cTempo1h 1 10 10 true).2.1 =
        (mTempoFull) ∧
      (matchPair (mTempoFull) cTempo1h 1 10 10 true).2.2 =
        cTempo1h := by
  have h : (matchPair (mTempoFull) cTempo1h 1 10 10 true).1 =
      false := by
    norm_num +decide [matchPair, matchPairCat, mTempo, cTempo1h, mkMetar,
      initTafComp, changeProb, strStarts, strEnds]
  exact ⟨h, matchPair_false_frame _ _ _ _ _ _ h⟩

/-- One `match_section` step on a component preserves the counter
invariant: exact matches never exceed total matches, total matches
never exceed the ceiling of `max_matches`, and `max_matches` itself is
untouched. -/
theorem sectionStep_preserves (t t' : TafComp) (hstep : SectionStep t t')
    (h1 : t.exact_matched_metars ≤ t.matched_metars)
    (h2 : t.matched_metars ≤ ⌈t.max_matches⌉) :
    t'.exact_matched_metars ≤ t'.matched_metars ∧
      t'.matched_metars ≤ ⌈t'.max_matches⌉ ∧
      t'.max_matches = t.max_matches := by
  rcases hstep with ⟨m, mainCat, minId, maxId, force, rfl⟩ | ⟨r, q, rfl⟩
  · unfold matchPair
    rcases hcat : matchPairCat m t mainCat minId maxId force with _ | fcCat <;>
      simp only [hcat] <;> split_ifs <;>
      simp_all
    all_goals {
      have hlt : (t.matched_metars : ℚ) < t.max_matches := by assumption
      have : t.matched_metars < ⌈t.max_matches⌉ := Int.lt_ceil.mpr hlt
      omega }
  · exact ⟨h1, h2, rfl⟩

/-- C2 (amended): throughout any sequence of `match_section` steps
starting from a component state with zeroed counters and a nonnegative
`max_matches` — the state `extract.py` initialises — a component
satisfies `exact_matched_metars ≤ matched_metars` and
`matched_metars ≤ ⌈max_matches⌉`.  The bound `matched_metars ≤
max_matches` itself only holds when `max_matches` is integral: a TEMPO
component has `max_matches` halved and can reach
`matched_metars = ⌈max_matches⌉ > max_matches`. -/
theorem matchCounters_bound (t₀ t : TafComp)
    (hm : t₀.matched_metars = 0) (he : t₀.exact_matched_metars = 0)
    (hmax : 0 ≤ t₀.max_matches)
    (h : Relation.ReflTransGen SectionStep t₀ t) :
    t.exact_matched_metars ≤ t.matched_metars ∧
      t.matched_metars ≤ ⌈t.max_matches⌉ := by
  induction h with
  | refl =>
    refine ⟨by omega, ?_⟩
    rw [hm]
    exact Int.ceil_nonneg hmax
  | tail hs hstep ih =>
    have r := sectionStep_preserves _ _ hstep ih.1 ih.2
    exact ⟨r.1, r.2.1⟩

/-- C2 witness: the freshly initialised 1-hour TEMPO component, after
the `match_pair` call `match_section` performs on it, still satisfies
the amended bounds. -/
theorem matchCounters_bound_witness :
    cTempo1h.matched_metars = 0 ∧ cTempo1h.exact_matched_metars = 0 ∧
      0 ≤ cTempo1h.max_matches ∧
      ((matchPair mTempo cTempo1h 1 10 10 true).2.2.exact_matched_metars ≤
        (matchPair mTempo cTempo1h 1 10 10 true).2.2.matched_metars ∧
      (matchPair mTempo cTempo1h 1 10 10 true).2.2.matched_metars ≤
        ⌈(matchPair mTempo cTempo1h 1 10 10 true).2.2.max_matches⌉) := by
  have hmax : 0 ≤ cTempo1h.max_matches := by
    norm_num +decide [cTempo1h, initTafComp, strStarts, strEnds]
  exact ⟨rfl, rfl, hmax,
    matchCounters_bound cTempo1h _ rfl rfl hmax
      (Relation.ReflTransGen.single
        (Or.inl ⟨mTempo, 1, 10, 10, true, rfl⟩))⟩

/-- C2 counterexample: running `match_section` on a single-observation
section with the freshly initialised 1-hour TEMPO component drives its
`matched_metars` to 1 while `max_matches = 1/2`, violating
`matched_metars ≤ max_matches` as claimed. -/
theorem matchCounters_claim_cex :
    (getTaf tempoRun.tafs 1).matched_metars = 1 ∧
      (getTaf tempoRun.tafs 1).max_matches = 1/2 ∧
      ¬ (((getTaf tempoRun.tafs 1).matched_metars : ℚ) ≤
        (getTaf tempoRun.tafs 1).max_matches) := by
  norm_num +decide [tempoRun, matchSection, cInit1h, cTempo1h, mTempo,
    initTafComp, mkMetar, getTaf, getMetar, setTaf, setMetar, sortMetarIds,
    sortTafIds, applyMatch, matchPair, matchPairCat, changeProb,
    List.mergeSort, probLimitPass, strStarts, strEnds]

/-- `match_pair` keeps the observation's bookkeeping consistent: the
recorded probabilities sum to the allocated total, which never exceeds
one. -/
theorem matchPair_metar_invariant (m : MetarComp) (t : TafComp)
    (mainCat : ℤ) (minId maxId : ℕ) (force : Bool)
    (hsum : probSum m.matchList = m.prob) (hle : m.prob ≤ 1) :
    probSum (matchPair m t mainCat minId maxId force).2.1.matchList =
      (matchPair m t mainCat minId maxId force).2.1.prob ∧
      (matchPair m t mainCat minId maxId force).2.1.prob ≤ 1 := by
  unfold matchPair
  rcases hcat : matchPairCat m t mainCat minId maxId force with _ | fcCat <;>
    simp only [hcat] <;> split_ifs <;>
    simp_all [probSum]

/-- The observation invariant holds after any sequence of `match_pair`
calls. -/
theorem applyMetarCalls_invariant (cs : List (TafComp × ℤ × ℕ × ℕ × Bool))
    (m : MetarComp) (hsum : probSum m.matchList = m.prob)
    (hle : m.prob ≤ 1) :
    probSum (applyMetarCalls m cs).matchList = (applyMetarCalls m cs).prob ∧
      (applyMetarCalls m cs).prob ≤ 1 := by
  induction cs generalizing m with
  | nil => exact ⟨hsum, hle⟩
  | cons c rest ih =>
    have h := matchPair_metar_invariant m c.1 c.2.1 c.2.2.1 c.2.2.2.1
      c.2.2.2.2 hsum hle
    exact ih _ h.1 h.2

/-- C3: for an observation whose matching state was reset by
`match_section` (`match = []`, `prob = 0`), after any sequence of
`match_pair` calls followed by the residual fill of `construct_rt`
(lines 243-245), the recorded probabilities sum to exactly 1 over the
rationals. -/
theorem residual_probSum_one (m : MetarComp)
    (cs : List (TafComp × ℤ × ℕ × ℕ × Bool)) (mainCat : ℤ)
    (hml : m.matchList = []) (hp : m.prob = 0) :
    probSum (residualFill mainCat (applyMetarCalls m cs)).matchList = 1 := by
  have h := applyMetarCalls_invariant cs m (by simp [hml, hp, probSum]) (by
    rw [hp]; norm_num)
  unfold residualFill
  split_ifs with hlt
  · simp [probSum] at h ⊢
    linarith [h.1]
  · have : (applyMetarCalls m cs).prob = 1 := le_antisymm h.2 (not_lt.mp hlt)
    rw [h.1, this]

/-- C3 witness: a concrete reset observation matched once against the
TEMPO component and then residual-filled carries total probability 1. -/
theorem residual_probSum_one_witness :
    mTempo.matchList = [] ∧ mTempo.prob = 0 ∧
      probSum (residualFill 1
        (applyMetarCalls mTempo [(cTempo1h, 1, 10, 10, true)])).matchList
        = 1 :=
  ⟨rfl, rfl, residual_probSum_one mTempo [(cTempo1h, 1, 10, 10, true)] 1
    rfl rfl⟩

theorem roundHalfEven_intCast (z : ℤ) : roundHalfEven (z : ℚ) = z := by
  unfold roundHalfEven
  rw [Int.floor_intCast]
  norm_num

theorem pyRound2_isM20 (q : ℚ) (h : IsM20 q) : pyRound q 2 = q := by
  obtain ⟨z, rfl⟩ := h
  unfold pyRound
  have h5 : ((z : ℚ) / 20) * 10 ^ 2 = ((5 * z : ℤ) : ℚ) := by
    push_cast
    ring
  rw [h5, roundHalfEven_intCast]
  push_cast
  ring

theorem snapProb_isM20 (p : ℚ) : IsM20 (snapProb p) := by
  unfold snapProb
  dsimp only
  split_ifs <;>
  [exact ⟨2 * pythonInt (pyRound p 6 * 10), by
      rw [pyRound2_isM20 _ ⟨2 * pythonInt (pyRound p 6 * 10), by push_cast; ring⟩]
      push_cast; ring⟩;
   exact ⟨2 * pythonInt (pyRound p 6 * 10) + 1, by
      rw [pyRound2_isM20 _ ⟨2 * pythonInt (pyRound p 6 * 10) + 1, by push_cast; ring⟩]
      push_cast; ring⟩;
   exact ⟨2 * pythonInt (pyRound p 6 * 10) + 2, by
      rw [pyRound2_isM20 _ ⟨2 * pythonInt (pyRound p 6 * 10) + 2, by push_cast; ring⟩]
      push_cast; ring⟩]

theorem IsM20.sub {a b : ℚ} (ha : IsM20 a) (hb : IsM20 b) : IsM20 (a - b) := by
  obtain ⟨x, rfl⟩ := ha
  obtain ⟨y, rfl⟩ := hb
  exact ⟨x - y, by push_cast; ring⟩

theorem IsM20.one : IsM20 1 := ⟨20, by norm_num⟩

theorem probSum_isM20 (l : List (ℤ × ℚ)) (h : ∀ x ∈ l, IsM20 x.2) :
    IsM20 (probSum l) := by
  induction l with
  | nil => exact ⟨0, by simp [probSum]⟩
  | cons x rest ih =>
    obtain ⟨z, hz⟩ := h x (List.mem_cons_self x rest)
    obtain ⟨w, hw⟩ := ih (fun y hy => h y (List.mem_cons_of_mem _ hy))
    refine ⟨z + w, ?_⟩
    simp only [probSum, List.map_cons, List.sum_cons] at hw ⊢
    rw [hz, hw]
    push_cast
    ring

theorem probSum_append (l₁ l₂ : List (ℤ × ℚ)) :
    probSum (l₁ ++ l₂) = probSum l₁ + probSum l₂ := by
  simp [probSum]

theorem correctRounding_probSum (l : List (ℤ × ℚ)) (hne : l ≠ [])
    (h : ∀ x ∈ l, IsM20 x.2) : probSum (correctRounding l) = 1 := by
  have hperm : (l.mergeSort (fun a b => decide (a.2 ≤ b.2))).Perm l :=
    List.mergeSort_perm l _
  have hsum_eq : probSum (l.mergeSort (fun a b => decide (a.2 ≤ b.2))) =
      probSum l := by
    unfold probSum
    exact (hperm.map Prod.snd).sum_eq
  have hM : IsM20 (probSum l) := probSum_isM20 l h
  unfold correctRounding
  split_ifs with hne1
  · set srt := l.mergeSort (fun a b => decide (a.2 ≤ b.2)) with hsrt
    have hsrtne : srt ≠ [] := by
      intro hnil
      apply hne
      have hlen := hperm.length_eq
      rw [hnil] at hlen
      exact List.length_eq_zero.mp hlen.symm
    rcases hlast : srt.getLast? with _ | mx
    · rw [List.getLast?_eq_getLast srt hsrtne] at hlast
      exact absurd hlast (by simp)
    · simp only [hlast]
      have hmxeq : srt.getLast hsrtne = mx := by
        rw [List.getLast?_eq_getLast srt hsrtne] at hlast
        exact Option.some.inj hlast
      have hdecomp : srt.dropLast ++ [mx] = srt := by
        rw [← hmxeq]
        exact List.dropLast_append_getLast hsrtne
      have hmem : mx ∈ l := by
        rw [← hperm.mem_iff, ← hmxeq]
        exact List.getLast_mem hsrtne
      have hM2 : IsM20 mx.2 := h mx hmem
      have hMdif : IsM20 (mx.2 - (probSum l - 1)) :=
        hM2.sub (hM.sub IsM20.one)
      have hdl : probSum srt.dropLast + mx.2 = probSum l := by
        rw [← hsum_eq, ← hdecomp, probSum_append]
        simp [probSum]
      rw [probSum_append, pyRound2_isM20 _ hMdif]
      simp only [probSum, List.map_cons, List.map_nil, List.sum_cons,
        List.sum_nil]
      have h1 : probSum srt.dropLast = (srt.dropLast.map Prod.snd).sum := rfl
      have h2 : probSum l = (l.map Prod.snd).sum := rfl
      linarith [hdl]
  · push_neg at hne1
    rw [pyRound2_isM20 _ hM] at hne1
    exact hne1


set_option maxHeartbeats 1000000 in
theorem pyProbs_total (n : ℚ) (hn : 0 < n) (ct : String) (m a : ℤ)
    (pm : ℚ) (pa pi : Option ℚ)
    (h : pyProbs n ct m a = some (pm, pa, pi)) :
    tripleTotal m a pm pa pi = 1 := by
  have hn' : n ≠ 0 := hn.ne'
  unfold pyProbs at h
  by_cases hma : m = a
  · rw [if_pos hma] at h
    simp only [Option.some.injEq, Prod.mk.injEq] at h
    obtain ⟨rfl, rfl, rfl⟩ := h
    simp [tripleTotal]
  · rw [if_neg hma] at h
    dsimp only at h
    have habs : (1:ℤ) ≤ |m - a| := Int.one_le_abs (sub_ne_zero.mpr hma)
    have hK0 : (0:ℚ) ≤ ((|m - a| - 1 : ℤ) : ℚ) :=
      Int.cast_nonneg.mpr (by omega)
    have hK1 : ((|m - a| - 1 : ℤ) : ℚ) + 1 ≠ 0 := by positivity
    by_cases hIF : ct = "INIT" ∨ ct = "FM"
    · rw [if_pos hIF] at h
      simp only [Option.some.injEq, Prod.mk.injEq] at h
      obtain ⟨rfl, rfl, rfl⟩ := h
      simp [tripleTotal]
    · rw [if_neg hIF] at h
      by_cases hk : (|m - a| - 1 : ℤ) = 0
      all_goals by_cases hT : containsSub ct "TEMPO" = true
      · -- no intermediate categories, TEMPO family
        rw [if_pos hT] at h
        simp only [hk, Int.cast_zero] at h
        norm_num at h
        by_cases h30 : containsSub ct "PROB30" = true
        · rw [if_pos h30] at h
          obtain ⟨rfl, rfl, rfl⟩ := h
          simp only [tripleTotal, numICats, if_neg hma, hk, Int.cast_zero,
            Option.getD_some, Option.getD_none]
          field_simp
        · rw [if_neg h30] at h
          by_cases h40 : containsSub ct "PROB40" = true
          · rw [if_pos h40] at h
            obtain ⟨rfl, rfl, rfl⟩ := h
            simp only [tripleTotal, numICats, if_neg hma, hk, Int.cast_zero,
              Option.getD_some, Option.getD_none]
            field_simp
          · rw [if_neg h40] at h
            obtain ⟨rfl, rfl, rfl⟩ := h
            simp only [tripleTotal, numICats, if_neg hma, hk, Int.cast_zero,
              Option.getD_some, Option.getD_none]
            (field_simp; ring)
      · -- no intermediate categories, BECMG / PROB30 / PROB40
        rw [if_neg hT] at h
        by_cases hB : ct = "BECMG"
        · rw [if_pos hB, if_pos hk] at h
          simp only [hk, Int.cast_zero, Option.some.injEq,
            Prod.mk.injEq] at h
          obtain ⟨rfl, rfl, rfl⟩ := h
          simp only [tripleTotal, numICats, if_neg hma, hk, Int.cast_zero,
            Option.getD_some, Option.getD_none]
          (field_simp; ring)
        · rw [if_neg hB] at h
          by_cases hP3 : ct = "PROB30"
          · rw [if_pos hP3, if_pos hk] at h
            simp only [Option.some.injEq, Prod.mk.injEq] at h
            obtain ⟨rfl, rfl, rfl⟩ := h
            simp only [tripleTotal, numICats, if_neg hma, hk,
              Int.cast_zero, Option.getD_some, Option.getD_none]
            norm_num
          · rw [if_neg hP3] at h
            by_cases hP4 : ct = "PROB40"
            · rw [if_pos hP4, if_pos hk] at h
              simp only [Option.some.injEq, Prod.mk.injEq] at h
              obtain ⟨rfl, rfl, rfl⟩ := h
              simp only [tripleTotal, numICats, if_neg hma, hk,
                Int.cast_zero, Option.getD_some, Option.getD_none]
              norm_num
            · rw [if_neg hP4] at h
              exact absurd h (by simp)
      · -- intermediate categories present, TEMPO family
        rw [if_pos hT] at h
        have hKne : ((|m - a| - 1 : ℤ) : ℚ) ≠ 0 := Int.cast_ne_zero.mpr hk
        have hKpos : (0:ℚ) < ((|m - a| - 1 : ℤ) : ℚ) :=
          lt_of_le_of_ne hK0 (Ne.symm hKne)
        simp only [if_neg hk] at h
        by_cases hz : (n - 1) / (8 * n * ((|m - a| - 1 : ℤ) : ℚ)) = 0
        · have hn1 : n = 1 := by
            rcases div_eq_zero_iff.mp hz with h1 | h1
            · linarith
            · have : (0:ℚ) < 8 * n * ((|m - a| - 1 : ℤ) : ℚ) := by
                positivity
              exact absurd h1 this.ne'
          subst hn1
          norm_num at h
          by_cases h30 : containsSub ct "PROB30" = true
          · rw [if_pos h30] at h
            obtain ⟨rfl, rfl, rfl⟩ := h
            simp only [tripleTotal, numICats, if_neg hma, Option.getD_some,
              Option.getD_none]
            norm_num
          · rw [if_neg h30] at h
            by_cases h40 : containsSub ct "PROB40" = true
            · rw [if_pos h40] at h
              obtain ⟨rfl, rfl, rfl⟩ := h
              simp only [tripleTotal, numICats, if_neg hma,
                Option.getD_some, Option.getD_none]
              norm_num
            · rw [if_neg h40] at h
              obtain ⟨rfl, rfl, rfl⟩ := h
              simp only [tripleTotal, numICats, if_neg hma,
                Option.getD_some, Option.getD_none]
              norm_num
        · have hz3 : ¬ (3/10 *
              ((n - 1) / (8 * n * ((|m - a| - 1 : ℤ) : ℚ))) = 0) := by
            intro hc
            rcases mul_eq_zero.mp hc with h1 | h1
            · norm_num at h1
            · exact hz h1
          have hz4 : ¬ (2/5 *
              ((n - 1) / (8 * n * ((|m - a| - 1 : ℤ) : ℚ))) = 0) := by
            intro hc
            rcases mul_eq_zero.mp hc with h1 | h1
            · norm_num at h1
            · exact hz h1
          by_cases h30 : containsSub ct "PROB30" = true
          · rw [if_pos h30] at h
            simp only [if_neg hz3, Option.some.injEq, Prod.mk.injEq] at h
            obtain ⟨rfl, rfl, rfl⟩ := h
            simp only [tripleTotal, numICats, if_neg hma, Option.getD_some]
            generalize hg : ((|m - a| - 1 : ℤ) : ℚ) = K at hKne hKpos hK1 ⊢
            (field_simp; ring)
          · rw [if_neg h30] at h
            by_cases h40 : containsSub ct "PROB40" = true
            · rw [if_pos h40] at h
              simp only [if_neg hz4, Option.some.injEq, Prod.mk.injEq] at h
              obtain ⟨rfl, rfl, rfl⟩ := h
              simp only [tripleTotal, numICats, if_neg hma,
                Option.getD_some]
              generalize hg : ((|m - a| - 1 : ℤ) : ℚ) = K at hKne hKpos hK1 ⊢
              (field_simp; ring)
            · rw [if_neg h40] at h
              simp only [if_neg hz, Option.some.injEq, Prod.mk.injEq] at h
              obtain ⟨rfl, rfl, rfl⟩ := h
              simp only [tripleTotal, numICats, if_neg hma,
                Option.getD_some]
              generalize hg : ((|m - a| - 1 : ℤ) : ℚ) = K at hKne hKpos hK1 ⊢
              (field_simp; ring)
      · -- intermediate categories present, BECMG / PROB30 / PROB40
        rw [if_neg hT] at h
        have hKne : ((|m - a| - 1 : ℤ) : ℚ) ≠ 0 := Int.cast_ne_zero.mpr hk
        have hKpos : (0:ℚ) < ((|m - a| - 1 : ℤ) : ℚ) :=
          lt_of_le_of_ne hK0 (Ne.symm hKne)
        by_cases hB : ct = "BECMG"
        · rw [if_pos hB, if_neg hk] at h
          by_cases hz : (2 * n - 1) /
              (4 * n * (((|m - a| - 1 : ℤ) : ℚ) + 1)) = 0
          · have hn2 : n = 1/2 := by
              rcases div_eq_zero_iff.mp hz with h1 | h1
              · linarith
              · have : (0:ℚ) < 4 * n * (((|m - a| - 1 : ℤ) : ℚ) + 1) := by
                  have h2 : (0:ℚ) < ((|m - a| - 1 : ℤ) : ℚ) + 1 := by
                    linarith
                  positivity
                exact absurd h1 this.ne'
          -- record pm' = 0 and finish after substitution
            simp only [if_pos hz, Option.some.injEq, Prod.mk.injEq] at h
            obtain ⟨rfl, rfl, rfl⟩ := h
            simp only [tripleTotal, numICats, if_neg hma, Option.getD_some,
              Option.getD_none]
            rw [hz, hn2]
            norm_num
          · simp only [if_neg hz, Option.some.injEq, Prod.mk.injEq] at h
            obtain ⟨rfl, rfl, rfl⟩ := h
            simp only [tripleTotal, numICats, if_neg hma, Option.getD_some]
            generalize hg : ((|m - a| - 1 : ℤ) : ℚ) = K at hKne hKpos hK1 ⊢
            (field_simp; ring)
        · rw [if_neg hB] at h
          by_cases hP3 : ct = "PROB30"
          · rw [if_pos hP3, if_neg hk] at h
            by_cases hz : (3/10 * (2 * n - 1)) /
                (4 * n * ((|m - a| - 1 : ℤ) : ℚ)) = 0
            · have hn2 : n = 1/2 := by
                rcases div_eq_zero_iff.mp hz with h1 | h1
                · rcases mul_eq_zero.mp h1 with h2 | h2
                  · norm_num at h2
                  · linarith
                · have : (0:ℚ) < 4 * n * ((|m - a| - 1 : ℤ) : ℚ) := by
                    positivity
                  exact absurd h1 this.ne'
              simp only [if_pos hz, Option.some.injEq, Prod.mk.injEq] at h
              obtain ⟨rfl, rfl, rfl⟩ := h
              simp only [tripleTotal, numICats, if_neg hma,
                Option.getD_some, Option.getD_none]
              rw [hn2]
              norm_num
            · simp only [if_neg hz, Option.some.injEq, Prod.mk.injEq] at h
              obtain ⟨rfl, rfl, rfl⟩ := h
              simp only [tripleTotal, numICats, if_neg hma,
                Option.getD_some]
              generalize hg : ((|m - a| - 1 : ℤ) : ℚ) = K at hKne hKpos hK1 ⊢
              (field_simp; ring)
          · rw [if_neg hP3] at h
            by_cases hP4 : ct = "PROB40"
            · rw [if_pos hP4, if_neg hk] at h
              by_cases hz : (2/5 * (2 * n - 1)) /
                  (4 * n * ((|m - a| - 1 : ℤ) : ℚ)) = 0
              · have hn2 : n = 1/2 := by
                  rcases div_eq_zero_iff.mp hz with h1 | h1
                  · rcases mul_eq_zero.mp h1 with h2 | h2
                    · norm_num at h2
                    · linarith
                  · have : (0:ℚ) < 4 * n * ((|m - a| - 1 : ℤ) : ℚ) := by
                      positivity
                    exact absurd h1 this.ne'
                simp only [if_pos hz, Option.some.injEq, Prod.mk.injEq] at h
                obtain ⟨rfl, rfl, rfl⟩ := h
                simp only [tripleTotal, numICats, if_neg hma,
                  Option.getD_some, Option.getD_none]
                rw [hn2]
                norm_num
              · simp only [if_neg hz, Option.some.injEq, Prod.mk.injEq] at h
                obtain ⟨rfl, rfl, rfl⟩ := h
                simp only [tripleTotal, numICats, if_neg hma,
                  Option.getD_some]
                generalize hg : ((|m - a| - 1 : ℤ) : ℚ) = K at hKne hKpos hK1 ⊢
                (field_simp; ring)
            · rw [if_neg hP4] at h
              exact absurd h (by simp)

/-- The snapped-and-corrected probabilities recorded for one
observation by `construct_rt_uncertainty` always sum to exactly 1. -/
theorem mkMcMatch_snapped_sum (mCat aCat : ℤ) (pm : ℚ) (pa pi : Option ℚ) :
    probSum (correctRounding ((mkMcMatch mCat aCat pm pa pi).map
      (fun cp => (cp.1, snapProb cp.2)))) = 1 := by
  apply correctRounding_probSum
  · simp [mkMcMatch]
  · intro x hx
    simp only [List.mem_map] at hx
    obtain ⟨y, _, rfl⟩ := hx
    exact snapProb_isM20 y.2

/-- C5: for every section length `n > 0` and every supported
change-group type and category pair, the probability triple computed by
`probs` sums to exactly 1 before snapping (`prob_i` counted once per
intermediate category), and the snapped, residual-corrected
probabilities recorded in the uncertainty table sum to exactly 1.00. -/
theorem uncertaintyProbs_sum_one (n : ℚ) (hn : 0 < n) (ct : String)
    (m a : ℤ) (pm : ℚ) (pa pi : Option ℚ)
    (h : pyProbs n ct m a = some (pm, pa, pi)) :
    tripleTotal m a pm pa pi = 1 ∧
      probSum (correctRounding ((mkMcMatch m a pm pa pi).map
        (fun cp => (cp.1, snapProb cp.2)))) = 1 :=
  ⟨pyProbs_total n hn ct m a pm pa pi h, mkMcMatch_snapped_sum m a pm pa pi⟩

/-- C5 witness: a 2-hour TEMPO group one category away from main. -/
theorem uncertaintyProbs_sum_one_witness :
    (0:ℚ) < 2 ∧
      pyProbs 2 "TEMPO" 1 3 = some (5/8, some (5/16), some (1/16)) ∧
      (tripleTotal 1 3 (5/8) (some (5/16)) (some (1/16)) = 1 ∧
        probSum (correctRounding ((mkMcMatch 1 3 (5/8) (some (5/16))
          (some (1/16))).map (fun cp => (cp.1, snapProb cp.2)))) = 1) := by
  have h2 : (0:ℚ) < 2 := by norm_num
  have hp : pyProbs 2 "TEMPO" 1 3 = some (5/8, some (5/16), some (1/16)) := by
    norm_num +decide [pyProbs, containsSub, containsSub.go]
  exact ⟨h2, hp, uncertaintyProbs_sum_one 2 h2 "TEMPO" 1 3 _ _ _ hp⟩

/-- C6 counterexample: two components with the same change type inside
a section of the same yielded length get different triples, because
`probs` receives the component's own length (line 396), which also
shows the triple is not a function of the yielded section length and
change type alone. -/
theorem sectionCompTriple_not_section_fn :
    c6a.change_type = c6b.change_type ∧
      sectionCompTriple 2 1 c6a ≠ sectionCompTriple 2 1 c6b := by
  constructor
  · rfl
  · norm_num +decide [sectionCompTriple, pyProbs, c6a, c6b, initTafComp,
      TafComp.lengthH, containsSub, containsSub.go]

/-- C6 (amended): the per-component triple of
`construct_rt_uncertainty` is a function of the component's own length
in hours, its change-group type, the main category and the component's
category — and of nothing else, in particular not of the yielded
section length. -/
theorem sectionCompTriple_fn (s₁ s₂ : ℚ) (mc₁ mc₂ : ℤ) (c₁ c₂ : TafComp)
    (hl : c₁.lengthH = c₂.lengthH) (hct : c₁.change_type = c₂.change_type)
    (hm : mc₁ = mc₂) (hc : c₁.cat = c₂.cat) :
    sectionCompTriple s₁ mc₁ c₁ = sectionCompTriple s₂ mc₂ c₂ := by
  unfold sectionCompTriple
  rw [hl, hct, hm, hc]

/-- C6 witness: two equal-length shifted TEMPO windows produce the same
triple under different yielded section lengths. -/
theorem sectionCompTriple_fn_witness :
    c6a.lengthH = c6c.lengthH ∧ c6a.change_type = c6c.change_type ∧
      (1:ℤ) = 1 ∧ c6a.cat = c6c.cat ∧
      sectionCompTriple 2 1 c6a = sectionCompTriple 99 1 c6c := by
  have hl : c6a.lengthH = c6c.lengthH := by
    norm_num [c6a, c6c, initTafComp, TafComp.lengthH]
  exact ⟨hl, rfl, rfl, rfl, sectionCompTriple_fn 2 99 1 1 c6a c6c hl rfl
    rfl rfl⟩

/-- C7: whenever some gap between consecutive observation timestamps —
counting the interval from the validity start to the first observation
— exceeds two hours, consuming the sections generator raises
`TAFTwoHourMETARGapError`; no section is ever yielded. -/
theorem sections_gap_error (args : Args) (taf : TAF)
    (hne : taf.metar_comps ≠ []) (i : ℕ)
    (hi : i + 1 < (taf.init_comp.start_dt ::
      taf.metar_comps.map (·.issue_dt)).length)
    (hgap : (taf.init_comp.start_dt ::
        taf.metar_comps.map (·.issue_dt)).get ⟨i + 1, hi⟩ -
      (taf.init_comp.start_dt :: taf.metar_comps.map (·.issue_dt)).get
        ⟨i, by omega⟩ > 2 * 3600) :
    sectionsFrom args taf = .error .twoHourGap := by
  unfold sectionsFrom
  have h0 : taf.metar_comps.isEmpty = false := by
    simpa [List.isEmpty_iff] using hne
  have hlen' : 1 ≤ taf.metar_comps.length := by
    have := List.length_pos.mpr hne
    omega
  have hi' : i < taf.metar_comps.length := by
    have h := hi
    simp only [List.length_cons, List.length_map] at h
    omega
  have hzlen : i < ((taf.init_comp.start_dt ::
      (taf.metar_comps.map (·.issue_dt)).dropLast).zip
      (taf.metar_comps.map (·.issue_dt))).length := by
    simp only [List.length_zip, List.length_cons, List.length_dropLast,
      List.length_map]
    omega
  have hany : ((taf.init_comp.start_dt ::
      (taf.metar_comps.map (·.issue_dt)).dropLast).zip
      (taf.metar_comps.map (·.issue_dt))).any
      (fun p => decide (p.2 - p.1 > 2 * 3600)) = true := by
    rw [List.any_eq_true]
    refine ⟨((taf.init_comp.start_dt ::
      (taf.metar_comps.map (·.issue_dt)).dropLast).zip
      (taf.metar_comps.map (·.issue_dt))).get ⟨i, hzlen⟩, ?_, ?_⟩
    · rw [List.get_eq_getElem]
      exact List.getElem_mem hzlen
    · simp only [List.get_eq_getElem, List.getElem_zip]
      have he1 : (taf.init_comp.start_dt ::
          (taf.metar_comps.map (·.issue_dt)).dropLast).get ⟨i, by
            simp only [List.length_cons, List.length_dropLast,
              List.length_map]
            omega⟩ =
          (taf.init_comp.start_dt :: taf.metar_comps.map (·.issue_dt)).get
            ⟨i, by omega⟩ := by
        rcases i with _ | j
        · rfl
        · simp only [List.get_eq_getElem, List.getElem_cons_succ]
          apply List.getElem_dropLast
      have he2 : (taf.metar_comps.map (·.issue_dt)).get ⟨i, by
          simp only [List.length_map]
          omega⟩ =
          (taf.init_comp.start_dt ::
            taf.metar_comps.map (·.issue_dt)).get ⟨i + 1, hi⟩ := by
        simp only [List.get_eq_getElem, List.getElem_cons_succ]
      simp only [List.get_eq_getElem] at he1 he2 hgap
      rw [he1, he2]
      exact decide_eq_true hgap
  rw [h0]
  simp only [Bool.false_eq_true, if_false, hany, if_true]

/-- C7 witness: a TAF whose single METAR is three hours after the
validity start is rejected with the gap error. -/
theorem sections_gap_error_witness :
    gapTAF.metar_comps ≠ [] ∧
      ((0:ℕ) + 1 < (gapTAF.init_comp.start_dt ::
        gapTAF.metar_comps.map (·.issue_dt)).length) ∧
      sectionsFrom cxArgs gapTAF = .error .twoHourGap := by
  have hne : gapTAF.metar_comps ≠ [] := by simp [gapTAF]
  have hi : (0:ℕ) + 1 < (gapTAF.init_comp.start_dt ::
      gapTAF.metar_comps.map (·.issue_dt)).length := by
    simp [gapTAF]
  refine ⟨hne, hi, sections_gap_error cxArgs gapTAF hne 0 hi ?_⟩
  norm_num [gapTAF, cxInit, initTafComp, mkMetar]

/-- C8: a forecast whose length differs from the required verification
period is rejected by both table builders with `TAFWrongLengthError`,
and zero entries are written to either table. -/
theorem wrongLength_no_writes (args : Args) (taf : TAF)
    (h : some taf.len ≠ args.ver_period) :
    constructRt args taf = (some .wrongLength, []) ∧
      constructRtUncertainty args taf = (some .wrongLength, []) := by
  unfold constructRt constructRtUncertainty
  rw [if_pos h, if_pos h]
  exact ⟨rfl, rfl⟩

/-- C8 witness: the 4-hour complex TAF against a 2-hour verification
period writes nothing to either table. -/
theorem wrongLength_no_writes_witness :
    some cxTAF.len ≠ shortArgs.ver_period ∧
      (constructRt shortArgs cxTAF = (some .wrongLength, []) ∧
        constructRtUncertainty shortArgs cxTAF =
          (some .wrongLength, [])) := by
  have h : some cxTAF.len ≠ shortArgs.ver_period := by
    norm_num [TAF.len, cxTAF, cxInit, initTafComp, shortArgs, cxArgs]
  exact ⟨h, wrongLength_no_writes shortArgs cxTAF h⟩

/-- The dedup key test is reflexive. -/
theorem sameKeyB_refl (a : MetarComp) : sameKeyB a a = true := by
  simp [sameKeyB]

/-- The dedup key test is symmetric. -/
theorem sameKeyB_symm {a b : MetarComp} (h : sameKeyB a b = true) :
    sameKeyB b a = true := by
  simp only [sameKeyB, Bool.and_eq_true, decide_eq_true_eq] at h ⊢
  exact ⟨⟨h.1.1.symm, h.1.2.symm⟩, h.2.symm⟩

/-- Everything already kept stays kept by the dedup loop. -/
theorem removeDuplicatesGo_acc_mem (rest : List MetarComp) :
    ∀ acc a, a ∈ acc → a ∈ removeDuplicatesGo acc rest := by
  induction rest with
  | nil => intro acc a ha; simpa [removeDuplicatesGo] using ha
  | cons x t ih =>
    intro acc a ha
    unfold removeDuplicatesGo
    split_ifs
    · exact ih acc a ha
    · exact ih (acc ++ [x]) a (List.mem_append_left _ ha)

/-- Dedup-loop invariant: if a `MANL` observation with some key is
still to be processed, and every already-kept observation with that key
is `MANL`, and within the remaining list a later `MANL` duplicate
implies the earlier one is `MANL` too, then a `MANL` observation with
that key survives. -/
theorem removeDuplicatesGo_keeps_manl (rest : List MetarComp) :
    ∀ acc m, m ∈ rest → m.issue_origin = "MANL" →
    List.Pairwise (fun a b => sameKeyB a b = true →
      b.issue_origin = "MANL" → a.issue_origin = "MANL") rest →
    (∀ a ∈ acc, sameKeyB a m = true → a.issue_origin = "MANL") →
    ∃ m' ∈ removeDuplicatesGo acc rest,
      sameKeyB m' m = true ∧ m'.issue_origin = "MANL" := by
  induction rest with
  | nil => intro acc m hmem; exact absurd hmem (List.not_mem_nil m)
  | cons x t ih =>
    intro acc m hmem hm hord hacc
    rw [List.pairwise_cons] at hord
    unfold removeDuplicatesGo
    rcases List.mem_cons.mp hmem with rfl | hmt
    · split_ifs with hany
      · obtain ⟨a, ha, hkey⟩ := List.any_eq_true.mp hany
        exact ⟨a, removeDuplicatesGo_acc_mem t acc a ha,
          sameKeyB_symm hkey, hacc a ha (sameKeyB_symm hkey)⟩
      · exact ⟨m, removeDuplicatesGo_acc_mem t (acc ++ [m]) m
          (List.mem_append_right _ (List.mem_singleton.mpr rfl)),
          sameKeyB_refl m, hm⟩
    · split_ifs with hany
      · exact ih acc m hmt hm hord.2 hacc
      · refine ih (acc ++ [x]) m hmt hm hord.2 ?_
        intro a ha hkey
        rcases List.mem_append.mp ha with ha' | ha'
        · exact hacc a ha' hkey
        · have hax : a = x := List.mem_singleton.mp ha'
          subst hax
          exact hord.1 m hmt hkey hm

/-- C9 (amended): `remove_duplicates` keeps the first observation seen
for each key; under the extraction ordering — `issue_origin` descending
within a timestamp, so that a later `MANL` duplicate always has `MANL`
duplicates before it — a key with a `MANL` duplicate retains a `MANL`
one.  (When SPECIs are extracted, a `SPEC` duplicate precedes and is
kept instead: the claimed preference of `MANL` over special
observations does not hold.) -/
theorem removeDuplicates_keeps_manl (l : List MetarComp) (m : MetarComp)
    (hmem : m ∈ l) (hm : m.issue_origin = "MANL")
    (hord : List.Pairwise (fun a b => sameKeyB a b = true →
      b.issue_origin = "MANL" → a.issue_origin = "MANL") l) :
    ∃ m' ∈ removeDuplicates l,
      sameKeyB m' m = true ∧ m'.issue_origin = "MANL" :=
  removeDuplicatesGo_keeps_manl l [] m hmem hm hord (by simp)

/-- C9 witness: with SPECIs excluded the extraction yields `MANL`
before `AUTO` for one timestamp, and dedup keeps the `MANL` one. -/
theorem removeDuplicates_keeps_manl_witness :
    mManl ∈ [mManl, mAuto] ∧ mManl.issue_origin = "MANL" ∧
      ∃ m' ∈ removeDuplicates [mManl, mAuto],
        sameKeyB m' mManl = true ∧ m'.issue_origin = "MANL" := by
  refine ⟨List.mem_cons_self mManl [mAuto], rfl, ?_⟩
  refine removeDuplicates_keeps_manl [mManl, mAuto] mManl
    (List.mem_cons_self mManl [mAuto]) rfl ?_
  refine List.Pairwise.cons ?_ (List.Pairwise.cons ?_ List.Pairwise.nil)
  · intro b hb _ _
    rfl
  · intro b hb
    exact absurd hb (List.not_mem_nil b)

/-- C9 counterexample: a `SPEC` and a `MANL` observation share the
dedup key; in extraction order (`issue_origin` descending) the `SPEC`
one comes first and is the one kept, so no `MANL` observation survives
— deduplication does not prefer `MANL` over special observations. -/
theorem removeDuplicates_spec_over_manl :
    sameKeyB mSpec mManl = true ∧ mSpec.issue_origin = "SPEC" ∧
      mManl.issue_origin = "MANL" ∧
      removeDuplicates [mSpec, mManl] = [mSpec] ∧
      ∀ x ∈ removeDuplicates [mSpec, mManl], x.issue_origin ≠ "MANL" := by
  have h1 : sameKeyB mSpec mManl = true := by
    norm_num [sameKeyB, mSpec, mManl, mkMetar]
  have h2 : removeDuplicates [mSpec, mManl] = [mSpec] := by
    norm_num +decide [removeDuplicates, removeDuplicatesGo, sameKeyB,
      mSpec, mManl, mkMetar]
  refine ⟨h1, rfl, rfl, h2, ?_⟩
  intro x hx
  rw [h2, List.mem_singleton] at hx
  subst hx
  decide

set_option maxHeartbeats 4000000 in
/-- C10: `construct_rt` is not atomic on `TAFTooComplexError`.  In this
four-hour run the second section records probability 0.4 twice on one
observation; the 0.2 residual has no probability bin, the error is
raised, and the increments already written — the whole first section
`[(1,1,5), (0,1,0)]` and the first two pairs of the failing
observation — remain in the table. -/
theorem constructRt_not_atomic :
    constructRt cxArgs cxTAF =
      (some .tooComplex, [(1, 1, 5), (0, 1, 0), (0, 0, 2), (0, 0, 2)]) := by
  norm_num +decide [constructRt, constructRtGo, cxArgs, cxTAF, cxInit,
    cxP40a, cxP40b, cxMetars, initTafComp, mkMetar, TAF.len, sectionsFrom,
    removeDuplicates, removeDuplicatesGo, sameKeyB, validComps, secLoop,
    processedMetars, changeBoundary, becmgUpdate, freshBase, initStore,
    matchSection,
    sortMetarIds, sortTafIds, getTaf, getMetar, setTaf, setMetar,
    applyMatch, matchPair, matchPairCat, changeProb, List.mergeSort,
    probLimitPass, strStarts, strEnds, sectionMetarLoop, metarWrites,
    metarPairWrites, backfillWrites, residualFill, probIndex,
    List.findIdx?, abs_lt]

theorem becmgUpdate_cases (prev : List TafComp) (t : ℚ) (main : TafComp) :
    becmgUpdate prev t main = main ∨
      (becmgUpdate prev t main ∈ prev ∧
        (becmgUpdate prev t main).change_type = "BECMG" ∧
        (becmgUpdate prev t main).end_dt = t) := by
  unfold becmgUpdate
  induction prev generalizing main with
  | nil => exact Or.inl rfl
  | cons c rest ih =>
    simp only [List.foldl_cons]
    rcases ih (if c.change_type = "BECMG" ∧ c.end_dt = t then c else main)
      with h | h
    · rw [h]
      split_ifs with hc
      · exact Or.inr ⟨List.mem_cons_self c rest, hc.1, hc.2⟩
      · exact Or.inl rfl
    · exact Or.inr ⟨List.mem_cons_of_mem c h.1, h.2⟩

theorem becmgUpdate_eq_of_none (prev : List TafComp) (t : ℚ)
    (main : TafComp)
    (h : ∀ c ∈ prev, ¬(c.change_type = "BECMG" ∧ c.end_dt = t)) :
    becmgUpdate prev t main = main := by
  unfold becmgUpdate
  induction prev generalizing main with
  | nil => rfl
  | cons c rest ih =>
    simp only [List.foldl_cons]
    rw [if_neg (h c (List.mem_cons_self c rest))]
    exact ih main (fun c' hc' => h c' (List.mem_cons_of_mem c hc'))

theorem validComps_mem_iff (tcs : List TafComp) (m : MetarComp)
    (c : TafComp) :
    c ∈ validComps tcs m ↔
      c ∈ tcs ∧ c.start_dt ≤ m.issue_dt ∧ m.issue_dt ≤ c.end_dt := by
  simp [validComps, List.mem_filter, and_assoc]

theorem sublist_map_id_inj {tcs l1 l2 : List TafComp}
    (hnd : (tcs.map (·.id)).Nodup)
    (h1 : ∀ x ∈ l1, x ∈ tcs) (h2 : ∀ x ∈ l2, x ∈ tcs)
    (h : l1.map (·.id) = l2.map (·.id)) : l1 = l2 := by
  induction l1 generalizing l2 with
  | nil =>
    cases l2 with
    | nil => rfl
    | cons b t2 => simp at h
  | cons a t1 ih =>
    cases l2 with
    | nil => simp at h
    | cons b t2 =>
      simp only [List.map_cons, List.cons.injEq] at h
      have hab : a = b := by
        have := List.inj_on_of_nodup_map hnd
        exact this (h1 a (List.mem_cons_self a t1))
          (h2 b (List.mem_cons_self b t2)) h.1
      rw [hab, ih (fun x hx => h1 x (List.mem_cons_of_mem a hx))
        (fun x hx => h2 x (List.mem_cons_of_mem b hx)) h.2]

theorem changeBoundary_bounds (tcs : List TafComp)
    (hnd : (tcs.map (·.id)).Nodup)
    (mPrev mCur : MetarComp) (hlt : mPrev.issue_dt < mCur.issue_dt)
    (hne : (validComps tcs mCur).map (·.id) ≠
      (validComps tcs mPrev).map (·.id)) :
    mPrev.issue_dt ≤
        changeBoundary (validComps tcs mPrev) (validComps tcs mCur) ∧
      changeBoundary (validComps tcs mPrev) (validComps tcs mCur) ≤
        mCur.issue_dt ∧
      (mPrev.issue_dt <
          changeBoundary (validComps tcs mPrev) (validComps tcs mCur) ∨
        changeBoundary (validComps tcs mPrev) (validComps tcs mCur) <
          mCur.issue_dt) := by
  unfold changeBoundary
  dsimp only
  rcases hstart : (validComps tcs mCur).filter
      (fun vc => !((validComps tcs mPrev).any fun c => c.id = vc.id))
    with _ | ⟨c, cs⟩
  · rcases hend : (validComps tcs mPrev).filter
        (fun vc => !((validComps tcs mCur).any fun c => c.id = vc.id))
      with _ | ⟨c, cs⟩
    · -- both empty: the valid sets agree, contradicting the transition
      exfalso
      apply hne
      have hsub1 : ∀ x ∈ validComps tcs mCur, x ∈ validComps tcs mPrev := by
        intro x hx
        have := (List.filter_eq_nil.mp hstart) x hx
        simp only [Bool.not_eq_true', Bool.not_eq_false] at this
        obtain ⟨c', hc', hcid⟩ := List.any_eq_true.mp this
        have hc'x : c' = x := by
          have hinj := List.inj_on_of_nodup_map hnd
          exact hinj ((validComps_mem_iff tcs mPrev c').mp hc').1
            ((validComps_mem_iff tcs mCur x).mp hx).1
            (by exact_mod_cast of_decide_eq_true hcid)
        rw [← hc'x]
        exact hc'
      have hsub2 : ∀ x ∈ validComps tcs mPrev, x ∈ validComps tcs mCur := by
        intro x hx
        have := (List.filter_eq_nil.mp hend) x hx
        simp only [Bool.not_eq_true', Bool.not_eq_false] at this
        obtain ⟨c', hc', hcid⟩ := List.any_eq_true.mp this
        have hc'x : c' = x := by
          have hinj := List.inj_on_of_nodup_map hnd
          exact hinj ((validComps_mem_iff tcs mCur c').mp hc').1
            ((validComps_mem_iff tcs mPrev x).mp hx).1
            (by exact_mod_cast of_decide_eq_true hcid)
        rw [← hc'x]
        exact hc'
      have heq : validComps tcs mCur = validComps tcs mPrev := by
        unfold validComps
        apply List.filter_congr
        intro x hx
        by_cases hxv : x ∈ validComps tcs mCur
        · have h1 := ((validComps_mem_iff tcs mCur x).mp hxv).2
          have h2 := ((validComps_mem_iff tcs mPrev x).mp (hsub1 x hxv)).2
          have hL : (decide (x.start_dt ≤ mCur.issue_dt) &&
              decide (mCur.issue_dt ≤ x.end_dt)) = true := by
            rw [Bool.and_eq_true, decide_eq_true_eq, decide_eq_true_eq]
            exact h1
          have hR : (decide (x.start_dt ≤ mPrev.issue_dt) &&
              decide (mPrev.issue_dt ≤ x.end_dt)) = true := by
            rw [Bool.and_eq_true, decide_eq_true_eq, decide_eq_true_eq]
            exact h2
          rw [hL, hR]
        · by_cases hxq : x ∈ validComps tcs mPrev
          · exact absurd (hsub2 x hxq) hxv
          · have hv1 : ¬ (x.start_dt ≤ mCur.issue_dt ∧
                mCur.issue_dt ≤ x.end_dt) := by
              intro hc
              exact hxv ((validComps_mem_iff tcs mCur x).mpr
                ⟨hx, hc.1, hc.2⟩)
            have hv2 : ¬ (x.start_dt ≤ mPrev.issue_dt ∧
                mPrev.issue_dt ≤ x.end_dt) := by
              intro hc
              exact hxq ((validComps_mem_iff tcs mPrev x).mpr
                ⟨hx, hc.1, hc.2⟩)
            have hL : (decide (x.start_dt ≤ mCur.issue_dt) &&
                decide (mCur.issue_dt ≤ x.end_dt)) = false := by
              by_contra hcl
              rw [Bool.not_eq_false, Bool.and_eq_true, decide_eq_true_eq,
                decide_eq_true_eq] at hcl
              exact hv1 hcl
            have hR : (decide (x.start_dt ≤ mPrev.issue_dt) &&
                decide (mPrev.issue_dt ≤ x.end_dt)) = false := by
              by_contra hcl
              rw [Bool.not_eq_false, Bool.and_eq_true, decide_eq_true_eq,
                decide_eq_true_eq] at hcl
              exact hv2 hcl
            rw [hL, hR]
      rw [heq]
    · -- ending component: boundary is its end time
      rw [hstart, hend]
      have hcmem : c ∈ (validComps tcs mPrev).filter
          (fun vc => !((validComps tcs mCur).any fun c => c.id = vc.id)) := by
        rw [hend]
        exact List.mem_cons_self c cs
      rw [List.mem_filter] at hcmem
      obtain ⟨hcp, hcnot⟩ := hcmem
      obtain ⟨hctcs, hcs, hce⟩ := (validComps_mem_iff tcs mPrev c).mp hcp
      have hout : mCur.issue_dt > c.end_dt := by
        by_contra hcon
        push_neg at hcon
        have hcv : c ∈ validComps tcs mCur := by
          rw [validComps_mem_iff]
          exact ⟨hctcs, le_trans hcs (le_of_lt hlt), hcon⟩
        have : (validComps tcs mCur).any (fun c' => c'.id = c.id) = true :=
          List.any_eq_true.mpr ⟨c, hcv, by simp⟩
        rw [this] at hcnot
        simp at hcnot
      exact ⟨hce, le_of_lt hout, Or.inr hout⟩
  · -- starting component: boundary is its start time
    rw [hstart]
    have hcmem : c ∈ (validComps tcs mCur).filter
        (fun vc => !((validComps tcs mPrev).any fun c => c.id = vc.id)) := by
      rw [hstart]
      exact List.mem_cons_self c cs
    rw [List.mem_filter] at hcmem
    obtain ⟨hcp, hcnot⟩ := hcmem
    obtain ⟨hctcs, hcs, hce⟩ := (validComps_mem_iff tcs mCur c).mp hcp
    have hout : c.start_dt > mPrev.issue_dt := by
      by_contra hcon
      push_neg at hcon
      have hcv : c ∈ validComps tcs mPrev := by
        rw [validComps_mem_iff]
        exact ⟨hctcs, hcon, le_trans (le_of_lt hlt) hce⟩
      have : (validComps tcs mPrev).any (fun c' => c'.id = c.id) = true :=
        List.any_eq_true.mpr ⟨c, hcv, by simp⟩
      rw [this] at hcnot
      simp at hcnot
    exact ⟨le_of_lt hout, hcs, Or.inl hout⟩

theorem headD_append_of_ne_nil {α : Type} [Inhabited α] (l l2 : List α)
    (h : l ≠ []) : (l ++ l2).headD default = l.headD default := by
  cases l with
  | nil => exact absurd rfl h
  | cons a t => rfl

theorem getLastD_mem_of_ne_nil {α : Type} [Inhabited α] (l : List α)
    (h : l ≠ []) : l.getLastD default ∈ l := by
  induction l with
  | nil => exact absurd rfl h
  | cons a t ih =>
    cases t with
    | nil => simp
    | cons b t' =>
      rw [List.getLastD_cons]
      exact List.mem_cons_of_mem a (ih (by simp))

theorem head?_eq_some_headD {α : Type} [Inhabited α] (l : List α)
    (h : l ≠ []) : l.head? = some (l.headD default) := by
  cases l with
  | nil => exact absurd rfl h
  | cons a t => rfl

set_option maxHeartbeats 1000000 in
theorem secLoop_spec (tcs : List TafComp) (hnd : (tcs.map (·.id)).Nodup)
    (endDt : ℚ) (rest : List MetarComp) :
    ∀ (acc : List MetarComp) (main : TafComp) (prev : List TafComp)
      (s : ℚ),
    acc ≠ [] →
    prev = validComps tcs (acc.getLastD default) →
    List.Pairwise (fun a b : MetarComp => a.issue_dt < b.issue_dt)
      (acc ++ rest) →
    (secLoop tcs endDt main acc prev s rest ≠ [] ∧
      ((secLoop tcs endDt main acc prev s rest).map (·.metars)).flatten =
        acc ++ rest ∧
      (∀ sec ∈ secLoop tcs endDt main acc prev s rest, sec.metars ≠ []) ∧
      ((secLoop tcs endDt main acc prev s rest).headD default).main = main ∧
      ((secLoop tcs endDt main acc prev s rest).headD
        default).metars.headD default = acc.headD default ∧
      List.Chain' SecAdj (secLoop tcs endDt main acc prev s rest)) := by
  induction rest with
  | nil =>
    intro acc main prev s hacc hprev hsort
    rw [secLoop]
    rw [if_neg (by simpa [List.isEmpty_iff] using hacc)]
    refine ⟨by simp, by simp, ?_, rfl, rfl, List.chain'_singleton _⟩
    intro sec hsec
    rw [List.mem_singleton] at hsec
    subst hsec
    exact hacc
  | cons m rest' ih =>
    intro acc main prev s hacc hprev hsort
    rw [secLoop]
    split_ifs with heq
    · -- same active set: extend the current section
      have hprev' : prev = validComps tcs m := by
        refine (sublist_map_id_inj hnd ?_ ?_ heq).symm
        · intro x hx
          exact ((validComps_mem_iff tcs m x).mp hx).1
        · intro x hx
          rw [hprev] at hx
          exact ((validComps_mem_iff tcs (acc.getLastD default) x).mp hx).1
      have h1 := ih (acc ++ [m]) main prev s (by simp)
        (by rw [hprev']; simp [List.getLastD_concat])
        (by rwa [List.append_assoc, List.singleton_append])
      obtain ⟨g1, g2, g3, g4, g5, g6⟩ := h1
      refine ⟨g1, ?_, g3, g4, ?_, g6⟩
      · rw [g2, List.append_assoc, List.singleton_append]
      · rw [g5, headD_append_of_ne_nil acc [m] hacc]
    · -- active set changed: yield and recurse from the trigger METAR
      have hlt : (acc.getLastD default).issue_dt < m.issue_dt := by
        rw [List.pairwise_append] at hsort
        exact hsort.2.2 (acc.getLastD default)
          (getLastD_mem_of_ne_nil acc hacc) m (List.mem_cons_self m rest')
      have hne' : (validComps tcs m).map (·.id) ≠ prev.map (·.id) := heq
      have h1 := ih [m] (becmgUpdate prev (changeBoundary prev
          (validComps tcs m)) main) (validComps tcs m)
        (changeBoundary prev (validComps tcs m)) (by simp) rfl
        (by
          rw [List.pairwise_append] at hsort
          simpa using hsort.2.1)
      obtain ⟨g1, g2, g3, g4, g5, g6⟩ := h1
      refine ⟨by simp, ?_, ?_, rfl, rfl, ?_⟩
      · rw [List.map_cons, List.flatten_cons, g2]
        simp
      · intro sec hsec
        rcases List.mem_cons.mp hsec with rfl | hsec'
        · exact hacc
        · exact g3 sec hsec'
      · rw [List.chain'_cons']
        refine ⟨?_, g6⟩
        intro b hb
        rw [head?_eq_some_headD _ g1] at hb
        rw [Option.mem_some_iff] at hb
        subst hb
        refine ⟨changeBoundary prev (validComps tcs m), ?_, ?_, ?_, ?_⟩
        · exact g4
        · subst hprev
          exact (changeBoundary_bounds tcs hnd _ m hlt hne').1
        · rw [g5]
          simp only [List.headD_cons]
          subst hprev
          exact (changeBoundary_bounds tcs hnd _ m hlt hne').2.1
        · rw [g5]
          simp only [List.headD_cons]
          subst hprev
          rcases (changeBoundary_bounds tcs hnd _ m hlt hne').2.2 with h | h
          · exact Or.inl h
          · exact Or.inr h

theorem removeDuplicatesGo_sublist (rest : List MetarComp) :
    ∀ acc, ∃ r, removeDuplicatesGo acc rest = acc ++ r ∧ r.Sublist rest := by
  induction rest with
  | nil => intro acc; exact ⟨[], by simp [removeDuplicatesGo]⟩
  | cons m t ih =>
    intro acc
    unfold removeDuplicatesGo
    split_ifs
    · obtain ⟨r, h1, h2⟩ := ih acc
      exact ⟨r, h1, h2.cons m⟩
    · obtain ⟨r, h1, h2⟩ := ih (acc ++ [m])
      exact ⟨m :: r, by rw [h1, List.append_assoc, List.singleton_append],
        h2.cons₂ m⟩

theorem removeDuplicates_sublist (l : List MetarComp) :
    (removeDuplicates l).Sublist l := by
  obtain ⟨r, h1, h2⟩ := removeDuplicatesGo_sublist l []
  rw [removeDuplicates, h1, List.nil_append]
  exact h2

theorem processedMetars_sublist (args : Args) (taf : TAF) :
    (processedMetars args taf).Sublist taf.metar_comps := by
  unfold processedMetars
  rcases args.ver_period with _ | vp
  · exact removeDuplicates_sublist _
  · exact (List.takeWhile_sublist _).trans (removeDuplicates_sublist _)

theorem pairwise_headD_le_getLastD (l : List MetarComp) (hne : l ≠ [])
    (h : List.Pairwise (fun a b : MetarComp => a.issue_dt < b.issue_dt) l) :
    (l.headD default).issue_dt ≤ (l.getLastD default).issue_dt := by
  cases l with
  | nil => exact absurd rfl hne
  | cons a t =>
    cases t with
    | nil => simp
    | cons b t' =>
      rw [List.headD_cons, List.getLastD_cons]
      rw [List.pairwise_cons] at h
      exact le_of_lt (h.1 _ (getLastD_mem_of_ne_nil (b :: t') (by simp)))

theorem exists_change_point (P : ℕ → Prop) :
    ∀ (d a : ℕ), ¬ P a → P (a + d) →
    ∃ q, a ≤ q ∧ q < a + d ∧ ¬ P q ∧ P (q + 1) := by
  intro d
  induction d with
  | zero => intro a ha hb; exact absurd hb ha
  | succ d ihd =>
    intro a ha hb
    by_cases hm : P (a + 1)
    · exact ⟨a, le_refl a, by omega, ha, hm⟩
    · obtain ⟨q, h1, h2, h3, h4⟩ := ihd (a + 1) hm (by
        have he : a + 1 + d = a + (d + 1) := by omega
        rw [he]
        exact hb)
      exact ⟨q, by omega, by omega, h3, h4⟩


theorem headD_eq_getD_zero {α : Type} [Inhabited α] (l : List α) :
    l.headD default = l.getD 0 default := by
  cases l <;> rfl

/-- C4: in the `sections` generator, `main` starts as the forecast's
`init_comp`; across each yield `main` is replaced exactly when a BECMG
component of the just-yielded active set ends at the section boundary
(otherwise it is unchanged, and any replacement is by such a component);
and, provided the TAF component ids are distinct, the METARs are
strictly sorted by issue time and the initial component is not itself a
BECMG, `main` never reverts to an earlier value in a later section. -/
theorem sections_main_correct (args : Args) (taf : TAF)
    (hnd : (taf.taf_comps.map (·.id)).Nodup)
    (hsort : List.Pairwise (fun a b : MetarComp => a.issue_dt < b.issue_dt)
      taf.metar_comps)
    (hinit : taf.init_comp.change_type ≠ "BECMG")
    (S : List Section) (hS : sectionsFrom args taf = .ok S) :
    (∀ s₀ ∈ S.head?, s₀.main = taf.init_comp) ∧
    List.Chain' (fun s s' : Section => ∃ t : ℚ,
      s'.main = becmgUpdate s.tafs t s.main ∧
      ((∀ c ∈ s.tafs, ¬(c.change_type = "BECMG" ∧ c.end_dt = t)) →
        s'.main = s.main) ∧
      (s'.main ≠ s.main →
        s'.main ∈ s.tafs ∧ s'.main.change_type = "BECMG" ∧
          s'.main.end_dt = t)) S ∧
    (∀ i j k : ℕ, i < j → j < k → k < S.length →
      (S.getD i default).main = (S.getD k default).main →
      (S.getD j default).main = (S.getD i default).main) := by
  unfold sectionsFrom at hS
  dsimp only at hS
  split_ifs at hS with h1 h2 h3
  rcases hpm : processedMetars args taf with _ | ⟨m0, rest⟩
  · rw [hpm] at hS
    have hSnil : S = [] := by
      injection hS with h
      exact h.symm
    subst hSnil
    refine ⟨by simp, List.chain'_nil, ?_⟩
    intro i j k hij hjk hk
    simp at hk
  · rw [hpm] at hS
    have hS2 : secLoop taf.taf_comps taf.init_comp.end_dt taf.init_comp
        [m0] (validComps taf.taf_comps m0) taf.init_comp.start_dt rest
        = S := by
      injection hS
    -- sortedness of the processed METARs
    have hsub := processedMetars_sublist args taf
    rw [hpm] at hsub
    have hPsort : List.Pairwise
        (fun a b : MetarComp => a.issue_dt < b.issue_dt) (m0 :: rest) :=
      hsort.sublist hsub
    have spec := secLoop_spec taf.taf_comps hnd taf.init_comp.end_dt rest
      [m0] taf.init_comp (validComps taf.taf_comps m0)
      taf.init_comp.start_dt (by simp) (by simp)
      (by simpa using hPsort)
    rw [hS2] at spec
    obtain ⟨hne, hflat, hsecne, hheadmain, hheadmetar, hchain⟩ := spec
    refine ⟨?_, ?_, ?_⟩
    · -- (a) the first section's main is the initial component
      intro s₀ hs₀
      rw [head?_eq_some_headD S hne, Option.mem_some_iff] at hs₀
      subst hs₀
      exact hheadmain
    · -- (b) the characterisation of each main update
      refine hchain.imp ?_
      intro a b hab
      obtain ⟨t, ht1, _, _, _⟩ := hab
      refine ⟨t, ht1, ?_, ?_⟩
      · intro hnone
        rw [ht1]
        exact becmgUpdate_eq_of_none _ _ _ hnone
      · intro hneq
        rcases becmgUpdate_cases a.tafs t a.main with hc | hc
        · rw [ht1] at hneq
          exact absurd hc hneq
        · rw [ht1]
          exact hc
    · -- (c) no revert
      intro i j k hij hjk hk hik
      by_contra hMj
      -- indexed form of the adjacency chain, with chosen boundary times
      have hadj : ∀ p, p < S.length - 1 →
          SecAdj (S.getD p default) (S.getD (p + 1) default) := by
        intro p hp
        have hp1 : p < S.length := by omega
        have hp2 : p + 1 < S.length := by omega
        rw [List.getD_eq_getElem S default hp1,
          List.getD_eq_getElem S default hp2]
        have := List.chain'_iff_get.mp hchain p (by omega)
        simpa [List.get_eq_getElem] using this
      have hadj' : ∀ p : ℕ, ∃ t : ℚ, p < S.length - 1 →
          ((S.getD (p + 1) default).main =
            becmgUpdate (S.getD p default).tafs t
              (S.getD p default).main ∧
          ((S.getD p default).metars.getLastD default).issue_dt ≤ t ∧
          t ≤ ((S.getD (p + 1) default).metars.headD default).issue_dt ∧
          (((S.getD p default).metars.getLastD default).issue_dt < t ∨
            t < ((S.getD (p + 1) default).metars.headD
              default).issue_dt)) := by
        intro p
        by_cases hp : p < S.length - 1
        · obtain ⟨t, ht⟩ := hadj p hp
          exact ⟨t, fun _ => ht⟩
        · exact ⟨0, fun h => absurd h hp⟩
      choose T hT using hadj'
      -- within each section the first METAR is no later than the last
      have hwithin : ∀ p, p < S.length →
          ((S.getD p default).metars.headD default).issue_dt ≤
          ((S.getD p default).metars.getLastD default).issue_dt := by
        intro p hp
        have hmem : (S.getD p default).metars ∈ S.map (·.metars) := by
          rw [List.getD_eq_getElem S default hp]
          exact List.mem_map.mpr ⟨S[p], List.getElem_mem hp, rfl⟩
        have hsubl : (S.getD p default).metars.Sublist (m0 :: rest) := by
          have h := List.sublist_flatten_of_mem hmem
          rw [hflat] at h
          simpa using h
        have hps := hPsort.sublist hsubl
        have hnonempty : (S.getD p default).metars ≠ [] := by
          rw [List.getD_eq_getElem S default hp]
          exact hsecne _ (List.getElem_mem hp)
        exact pairwise_headD_le_getLastD _ hnonempty hps
      -- the chosen boundary times are monotone
      have hstep : ∀ p, p + 1 < S.length - 1 → T p ≤ T (p + 1) := by
        intro p hp
        have h0 := hT p (by omega)
        have hp1 := hT (p + 1) hp
        have hw := hwithin (p + 1) (by omega)
        linarith [h0.2.2.1, hp1.2.1]
      have hmono : ∀ d p, p + d < S.length - 1 → T p ≤ T (p + d) := by
        intro d
        induction d with
        | zero => intro p _; exact le_refl _
        | succ d ihd =>
          intro p hp
          have hA : T p ≤ T (p + d) := ihd p (by omega)
          have hB : T (p + d) ≤ T (p + d + 1) := hstep (p + d) (by omega)
          have hC : p + (d + 1) = p + d + 1 := by omega
          rw [hC]
          linarith
      -- M 0 is the initial component
      have hM0 : (S.getD 0 default).main = taf.init_comp := by
        rw [← headD_eq_getD_zero]
        exact hheadmain
      -- the value returned to at index k first arrived after j
      obtain ⟨q, hqa, hqb, hq3, hq4⟩ := exists_change_point
        (fun p => (S.getD p default).main = (S.getD i default).main)
        (k - j) j hMj
        (by
          rw [show j + (k - j) = k from by omega]
          exact hik.symm)
      have hqk : q < k := by omega
      have hqlt : q < S.length - 1 := by omega
      have hTq := hT q hqlt
      -- so that value is a BECMG ending at the boundary T q
      have hbec : (S.getD i default).main.change_type = "BECMG" ∧
          (S.getD i default).main.end_dt = T q := by
        rcases becmgUpdate_cases (S.getD q default).tafs (T q)
            (S.getD q default).main with hc | hc
        · exfalso
          have h := hTq.1
          rw [hc] at h
          rw [hq4] at h
          exact hq3 h.symm
        · obtain ⟨_, hcb, hce⟩ := hc
          rw [← hTq.1, hq4] at hcb hce
          exact ⟨hcb, hce⟩
      -- hence it is not the initial component, so it arrived before i too
      have hM0ne : ¬ ((S.getD 0 default).main =
          (S.getD i default).main) := by
        intro h
        rw [hM0] at h
        rw [← h] at hbec
        exact hinit hbec.1
      obtain ⟨q', hq'a, hq'b, hq'3, hq'4⟩ := exists_change_point
        (fun p => (S.getD p default).main = (S.getD i default).main)
        i 0 hM0ne (by simp)
      have hq'i : q' < i := by omega
      have hq'lt : q' < S.length - 1 := by omega
      have hTq' := hT q' hq'lt
      have hend' : (S.getD i default).main.end_dt = T q' := by
        rcases becmgUpdate_cases (S.getD q' default).tafs (T q')
            (S.getD q' default).main with hc | hc
        · exfalso
          have h := hTq'.1
          rw [hc] at h
          rw [hq'4] at h
          exact hq'3 h.symm
        · obtain ⟨_, _, hce⟩ := hc
          rw [← hTq'.1, hq'4] at hce
          exact hce
      -- both arrivals share the same boundary value
      have hTT : T q' = T q := by
        rw [← hend', ← hbec.2]
      -- squeeze: between the two arrivals every bound is equal,
      -- contradicting the strict inequality of the adjacency at q' + 1
      have hq2 : q' + 2 ≤ q := by omega
      have he1 := hT q' hq'lt
      have he2 := hT (q' + 1) (by omega)
      have he3 := hwithin (q' + 1) (by omega)
      have he4 := hwithin (q' + 2) (by omega)
      have he5 := hT (q' + 2) (by omega)
      have he6 : T (q' + 2) ≤ T q := by
        have h := hmono (q - (q' + 2)) (q' + 2) (by omega)
        rwa [show q' + 2 + (q - (q' + 2)) = q from by omega] at h
      rcases he2.2.2.2 with hs | hs
      · linarith [he1.2.2.1, he2.2.1, he2.2.2.1, he5.2.1]
      · linarith [he1.2.2.1, he2.2.1, he2.2.2.1, he5.2.1]

theorem sections_main_correct_witness :
    ((c4TAF.taf_comps.map (·.id)).Nodup ∧
      List.Pairwise (fun a b : MetarComp => a.issue_dt < b.issue_dt)
        c4TAF.metar_comps ∧
      c4TAF.init_comp.change_type ≠ "BECMG" ∧
      sectionsFrom c4Args c4TAF = .ok c4S) ∧
    ((∀ s₀ ∈ c4S.head?, s₀.main = c4TAF.init_comp) ∧
      List.Chain' (fun s s' : Section => ∃ t : ℚ,
        s'.main = becmgUpdate s.tafs t s.main ∧
        ((∀ c ∈ s.tafs, ¬(c.change_type = "BECMG" ∧ c.end_dt = t)) →
          s'.main = s.main) ∧
        (s'.main ≠ s.main →
          s'.main ∈ s.tafs ∧ s'.main.change_type = "BECMG" ∧
            s'.main.end_dt = t)) c4S ∧
      (∀ i j k : ℕ, i < j → j < k → k < c4S.length →
        (c4S.getD i default).main = (c4S.getD k default).main →
        (c4S.getD j default).main = (c4S.getD i default).main)) := by
  have h1 : (c4TAF.taf_comps.map (·.id)).Nodup := by
    simp [c4TAF, c4Becmg, initTafComp]
  have h2 : List.Pairwise (fun a b : MetarComp => a.issue_dt < b.issue_dt)
      c4TAF.metar_comps := by
    norm_num +decide [c4TAF, c4Metars, mkMetar, List.pairwise_cons]
  have h3 : c4TAF.init_comp.change_type ≠ "BECMG" := by
    simp [c4TAF, c4Init, initTafComp]
  have h4 : sectionsFrom c4Args c4TAF = .ok c4S := by
    norm_num +decide [c4S, c4Args, c4TAF, c4Init, c4Becmg, c4Metars,
      mkMetar, initTafComp, sectionsFrom, processedMetars,
      removeDuplicates, removeDuplicatesGo, sameKeyB, secLoop, validComps,
      changeBoundary, becmgUpdate, strStarts, strEnds, changeProb,
      Except.toOption]
  exact ⟨⟨h1, h2, h3, h4⟩,
    sections_main_correct c4Args c4TAF h1 h2 h3 c4S h4⟩
